import Mathlib

/-!
Verification of `src/renderer/macros.rs`: the `MacroCollection` builder
(`from_original_template`, `add_macros_from_template`) and its query
(`lookup_macro`).  Rust `HashMap`s are modelled by association lists whose
`insert` overwrites the previous binding of a key; the recursive graph walk is
modelled with an explicit fuel parameter, `none` standing for a run that does
not terminate within the given fuel (the source recursion has no cycle guard).
-/

/-- Opaque leaf value `parser::ast::MacroDefinition`; the collection only
references such values, identity is all that matters. -/
structure MacroDefinition where
  id : Nat
deriving DecidableEq

/-- `MacroDefinitionMap`: maps macro name to its definition. -/
abbrev MacroDefinitionMap := List (String × MacroDefinition)

/-- `MacroNamespaceMap`: maps namespace to (origin template name, that
origin's macro map). -/
abbrev MacroNamespaceMap := List (String × (String × MacroDefinitionMap))

/-- `MacroTemplateMap`: maps template name to its namespace map. -/
abbrev MacroTemplateMap := List (String × MacroNamespaceMap)

instance instDecEqNsValue : DecidableEq (String × MacroDefinitionMap) := inferInstance

instance instDecEqMacroNamespaceMap : DecidableEq MacroNamespaceMap := inferInstance

instance instDecEqMacroTemplateMap : DecidableEq MacroTemplateMap := inferInstance

/-- `HashMap::get` on the association-list model: the binding at the
front is the most recent insertion. -/
def lookupA {α : Type} (l : List (String × α)) (k : String) : Option α :=
  (l.find? (fun p => p.1 == k)).map (fun p => p.2)

/-- `HashMap::contains_key` on the association-list model. -/
def containsA {α : Type} (l : List (String × α)) (k : String) : Bool :=
  l.any (fun p => p.1 == k)

/-- `HashMap::insert` on the association-list model: overwrites any previous
binding of the key. -/
def insertA {α : Type} (l : List (String × α)) (k : String) (v : α) : List (String × α) :=
  (k, v) :: l.filter (fun p => !(p.1 == k))

/-- `template::Template`, restricted to the fields `macros.rs` reads: its
name, its own macros, its `(filename, namespace)` macro-import pairs in
declaration order, and its parent names. -/
structure Template where
  name : String
  macros : MacroDefinitionMap
  imported_macro_files : List (String × String)
  parents : List String
deriving DecidableEq

/-- `tera::Tera`, restricted to what `macros.rs` uses: the registry of
parsed templates. -/
structure Tera where
  templates : List Template
deriving DecidableEq

/-- `Tera::get_template`: resolve a template name in the registry. -/
def Tera.get_template (tera : Tera) (name : String) : Option Template :=
  tera.templates.find? (fun t => t.name == name)

/-- The error values of `errors::Result` that `macros.rs` produces:
a failed registry lookup (propagated by `?` from `get_template`), and the two
`bail!` conditions of `lookup_macro`, each carrying the identifiers the
formatted message names. -/
inductive TeraError where
  | templateNotFound (name : String)
  | namespaceNotFound (ns template_name : String)
  | macroNotFound (ns macro_name template_name : String)
deriving DecidableEq

/-- `MacroCollection`: maps template name to namespace map. -/
structure MacroCollection where
  macros : MacroTemplateMap
deriving DecidableEq

instance instDecEqExcept {ε α : Type} [DecidableEq ε] [DecidableEq α] :
    DecidableEq (Except ε α) := fun a b =>
  match a, b with
  | Except.ok x, Except.ok y =>
    if h : x = y then isTrue (by rw [h]) else isFalse (by simp [h])
  | Except.error x, Except.error y =>
    if h : x = y then isTrue (by rw [h]) else isFalse (by simp [h])
  | Except.ok _, Except.error _ => isFalse (by simp)
  | Except.error _, Except.ok _ => isFalse (by simp)

/-- The `for ... in &template.imported_macro_files` loop body of
`add_macros_from_template`, abstracted over the recursive call `rec`:
resolve each imported file (propagating failure), record the alias in the
namespace map under construction, and recurse into the imported template. -/
def visit_imports (tera : Tera)
    (rec : Template → MacroCollection → Option (Except TeraError MacroCollection)) :
    List (String × String) → MacroNamespaceMap → MacroCollection →
    Option (Except TeraError (MacroNamespaceMap × MacroCollection))
  | [], mnm, coll => some (Except.ok (mnm, coll))
  | (filename, ns) :: rest, mnm, coll =>
    match Tera.get_template tera filename with
    | none => some (Except.error (TeraError.templateNotFound filename))
    | some macro_tpl =>
      match rec macro_tpl coll with
      | none => none
      | some (Except.error e) => some (Except.error e)
      | some (Except.ok coll2) =>
        visit_imports tera rec rest (insertA mnm ns (filename, macro_tpl.macros)) coll2

/-- The `for parent in &template.parents` loop body of
`add_macros_from_template`, abstracted over the recursive call `rec`. -/
def visit_parents (tera : Tera)
    (rec : Template → MacroCollection → Option (Except TeraError MacroCollection)) :
    List String → MacroCollection → Option (Except TeraError MacroCollection)
  | [], coll => some (Except.ok coll)
  | parent :: rest, coll =>
    match Tera.get_template tera parent with
    | none => some (Except.error (TeraError.templateNotFound parent))
    | some parent_template =>
      match rec parent_template coll with
      | none => none
      | some (Except.error e) => some (Except.error e)
      | some (Except.ok coll2) => visit_parents tera rec rest coll2

/-- One unfolding of `MacroCollection::add_macros_from_template`: the early
return when the template is already collected, the `"self"` entry when the
template has own macros, the import loop, the insertion of the completed
namespace map, and the parent loop — in source order. -/
def visit_template (tera : Tera)
    (rec : Template → MacroCollection → Option (Except TeraError MacroCollection))
    (template : Template) (coll : MacroCollection) :
    Option (Except TeraError MacroCollection) :=
  if containsA coll.macros template.name then
    some (Except.ok coll)
  else
    match visit_imports tera rec template.imported_macro_files
        (if template.macros.isEmpty then []
         else insertA [] "self" (template.name, template.macros)) coll with
    | none => none
    | some (Except.error e) => some (Except.error e)
    | some (Except.ok (mnm, coll2)) =>
      visit_parents tera rec template.parents ⟨insertA coll2.macros template.name mnm⟩

/-- `MacroCollection::add_macros_from_template`, with fuel bounding the
recursion depth; `none` models a run exceeding the fuel (the source has no
cycle guard, a cyclic import graph recurses unboundedly). -/
def add_macros_from_template (tera : Tera) :
    Nat → Template → MacroCollection → Option (Except TeraError MacroCollection)
  | 0, _, _ => none
  | fuel + 1, template, coll =>
    visit_template tera (fun t c => add_macros_from_template tera fuel t c) template coll

/-- `MacroCollection::from_original_template`: builds from an empty
collection.  The source unwraps the build result with `.expect(...)`, i.e. it
panics on a build error instead of returning it; `none` models that panic
(and, via the fuel, a non-terminating build), so this entry point has no
error channel. -/
def from_original_template (tpl : Template) (tera : Tera) (fuel : Nat) :
    Option MacroCollection :=
  match add_macros_from_template tera fuel tpl ⟨[]⟩ with
  | some (Except.ok coll) => some coll
  | _ => none

/-- `MacroCollection::lookup_macro`: resolve template then namespace (one
combined failure), then the macro name within that namespace's map. -/
def lookupMacro (coll : MacroCollection)
    (template_name macro_namespace macro_name : String) :
    Except TeraError (String × MacroDefinition) :=
  match (lookupA coll.macros template_name).bind
      (fun namespace_map => lookupA namespace_map macro_namespace) with
  | some nsv =>
    match lookupA nsv.2 macro_name with
    | some md => Except.ok (nsv.1, md)
    | none => Except.error (TeraError.macroNotFound macro_namespace macro_name template_name)
  | none => Except.error (TeraError.namespaceNotFound macro_namespace template_name)

/-! ### Derived descriptions of what the builder computes -/

/-- The namespace map `add_macros_from_template` starts from: the `"self"`
entry when the template declares own macros, else empty. -/
def self_namespace_map (template : Template) : MacroNamespaceMap :=
  if template.macros.isEmpty then []
  else insertA [] "self" (template.name, template.macros)

/-- The namespace-map part of the import loop, with the collection threading
stripped: one alias insertion per `(filename, namespace)` pair in declaration
order, failing when a filename is not in the registry. -/
def built_namespace_loop (tera : Tera) :
    List (String × String) → MacroNamespaceMap → Option MacroNamespaceMap
  | [], mnm => some mnm
  | (filename, _ns) :: rest, mnm =>
    match Tera.get_template tera filename with
    | none => none
    | some mt =>
      built_namespace_loop tera rest
        (insertA mnm ((filename, _ns).2) (filename, mt.macros))

/-- The complete namespace map the builder computes for a template: the
`"self"` part followed by the alias insertions. -/
def built_namespace_map (tera : Tera) (t : Template) : Option MacroNamespaceMap :=
  built_namespace_loop tera t.imported_macro_files (self_namespace_map t)

/-- The filename of the last declaration of alias `a` in an ordered import
list; `none` when `a` is never declared. -/
def last_import : List (String × String) → String → Option String
  | [], _ => none
  | (filename, a0) :: rest, a =>
    match last_import rest a with
    | some f => some f
    | none => if a0 == a then some filename else none

/-- Edge of the reachability graph on template names: `k` resolves in the
registry and names `k'` as a macro-import file or as a parent. -/
def name_succ (tera : Tera) (k k' : String) : Prop :=
  ∃ t, Tera.get_template tera k = some t ∧
    (k' ∈ t.imported_macro_files.map Prod.fst ∨ k' ∈ t.parents)

/-- Transitive reachability on template names via macro-imports and parent
inheritance. -/
inductive reach_name (tera : Tera) : String → String → Prop
  | refl (k : String) : reach_name tera k k
  | step {k k' k'' : String} :
      name_succ tera k k' → reach_name tera k' k'' → reach_name tera k k''

/-- Edge of the reachability graph on template objects: some import or parent
name of `t` resolves to `t'` in the registry. -/
def tpl_succ (tera : Tera) (t t' : Template) : Prop :=
  (∃ fa, fa ∈ t.imported_macro_files ∧ Tera.get_template tera fa.1 = some t') ∨
  (∃ p, p ∈ t.parents ∧ Tera.get_template tera p = some t')

/-- Shape invariant of the collection: every entry present belongs to a
registry template of that name, and its value is exactly the namespace map
the builder computes for that template. -/
def Shaped (tera : Tera) (coll : MacroCollection) : Prop :=
  ∀ k mnm, lookupA coll.macros k = some mnm →
    ∃ t, Tera.get_template tera k = some t ∧ built_namespace_map tera t = some mnm

/-- Successor-closure of the collection's key set, up to a set `Pb` of still
pending obligations. -/
def ClosedExcept (tera : Tera) (coll : MacroCollection)
    (Pb : String → String → Prop) : Prop :=
  ∀ k k', containsA coll.macros k = true → name_succ tera k k' →
    containsA coll.macros k' = true ∨ Pb k k'

/-! ### Association-list lemmas -/

theorem find?_filter_ne {α : Type} (l : List (String × α)) (k k' : String)
    (h : k' ≠ k) :
    (l.filter (fun p => !(p.1 == k))).find? (fun p => p.1 == k') =
      l.find? (fun p => p.1 == k') := by
  induction l with
  | nil => rfl
  | cons p t ih =>
    by_cases hp : p.1 = k
    · have h1 : (p.1 == k) = true := by simp [hp]
      have h2 : (p.1 == k') = false := by simp [hp]; exact fun he => h he.symm
      simp [List.filter, List.find?, h1, h2, ih]
    · have h1 : (p.1 == k) = false := by simp [hp]
      by_cases hq : p.1 = k'
      · have h2 : (p.1 == k') = true := by simp [hq]
        simp [List.filter, List.find?, h1, h2]
      · have h2 : (p.1 == k') = false := by simp [hq]
        simp [List.filter, List.find?, h1, h2, ih]

theorem lookupA_insertA {α : Type} (l : List (String × α)) (k k' : String) (v : α) :
    lookupA (insertA l k v) k' = if k' = k then some v else lookupA l k' := by
  by_cases h : k' = k
  · simp [lookupA, insertA, List.find?, h]
  · have h1 : (k == k') = false := by simp; exact fun he => h he.symm
    simp [lookupA, insertA, List.find?, h1, h, find?_filter_ne l k k' h]

theorem lookupA_insertA_self {α : Type} (l : List (String × α)) (k : String) (v : α) :
    lookupA (insertA l k v) k = some v := by
  simp [lookupA_insertA]

theorem lookupA_insertA_ne {α : Type} (l : List (String × α)) (k k' : String) (v : α)
    (h : k' ≠ k) : lookupA (insertA l k v) k' = lookupA l k' := by
  simp [lookupA_insertA, h]

theorem containsA_iff_lookupA {α : Type} (l : List (String × α)) (k : String) :
    containsA l k = true ↔ ∃ v, lookupA l k = some v := by
  constructor
  · intro h
    obtain ⟨p, hp, hpk⟩ := List.any_eq_true.mp h
    have hs : (l.find? (fun p => p.1 == k)).isSome :=
      List.find?_isSome.mpr ⟨p, hp, hpk⟩
    obtain ⟨q, hq⟩ := Option.isSome_iff_exists.mp hs
    exact ⟨q.2, by simp [lookupA, hq]⟩
  · rintro ⟨v, hv⟩
    simp only [lookupA, Option.map_eq_some'] at hv
    obtain ⟨p, hp, _⟩ := hv
    have hpk := List.find?_some hp
    exact List.any_eq_true.mpr ⟨p, List.mem_of_find?_eq_some hp, hpk⟩

theorem containsA_false_lookupA {α : Type} (l : List (String × α)) (k : String)
    (h : containsA l k = false) : lookupA l k = none := by
  cases hv : lookupA l k with
  | none => rfl
  | some v =>
    have := (containsA_iff_lookupA l k).mpr ⟨v, hv⟩
    rw [h] at this; cases this

/-! ### Registry lemmas -/

theorem get_template_name (tera : Tera) (n : String) (t : Template)
    (h : Tera.get_template tera n = some t) : t.name = n := by
  have := List.find?_some h
  simpa using this

theorem get_template_canonical (tera : Tera) (n : String) (t : Template)
    (h : Tera.get_template tera n = some t) :
    Tera.get_template tera t.name = some t := by
  rw [get_template_name tera n t h]; exact h

/-! ### Preservation: an entry present before a builder step survives it with
its exact value -/

theorem visit_imports_pres (tera : Tera)
    (rec : Template → MacroCollection → Option (Except TeraError MacroCollection))
    (hrec : ∀ t c c', rec t c = some (Except.ok c') →
      ∀ k v, lookupA c.macros k = some v → lookupA c'.macros k = some v) :
    ∀ imports mnm coll mnm' coll',
      visit_imports tera rec imports mnm coll = some (Except.ok (mnm', coll')) →
      ∀ k v, lookupA coll.macros k = some v → lookupA coll'.macros k = some v := by
  intro imports
  induction imports with
  | nil =>
    intro mnm coll mnm' coll' h k v hk
    simp only [visit_imports, Option.some.injEq, Except.ok.injEq, Prod.mk.injEq] at h
    rw [← h.2]; exact hk
  | cons fa rest ih =>
    intro mnm coll mnm' coll' h k v hk
    obtain ⟨filename, ns⟩ := fa
    simp only [visit_imports] at h
    split at h
    · exact absurd h (by simp)
    · rename_i mt hg
      split at h
      · exact absurd h (by simp)
      · exact absurd h (by simp)
      · rename_i c2 hr
        exact ih _ c2 mnm' coll' h k v (hrec mt coll c2 hr k v hk)

theorem visit_parents_pres (tera : Tera)
    (rec : Template → MacroCollection → Option (Except TeraError MacroCollection))
    (hrec : ∀ t c c', rec t c = some (Except.ok c') →
      ∀ k v, lookupA c.macros k = some v → lookupA c'.macros k = some v) :
    ∀ parents coll coll',
      visit_parents tera rec parents coll = some (Except.ok coll') →
      ∀ k v, lookupA coll.macros k = some v → lookupA coll'.macros k = some v := by
  intro parents
  induction parents with
  | nil =>
    intro coll coll' h k v hk
    simp only [visit_parents, Option.some.injEq, Except.ok.injEq] at h
    rw [← h]; exact hk
  | cons p rest ih =>
    intro coll coll' h k v hk
    simp only [visit_parents] at h
    split at h
    · exact absurd h (by simp)
    · rename_i pt hg
      split at h
      · exact absurd h (by simp)
      · exact absurd h (by simp)
      · rename_i c2 hr
        exact ih c2 coll' h k v (hrec pt coll c2 hr k v hk)

theorem visit_template_pres (tera : Tera)
    (rec : Template → MacroCollection → Option (Except TeraError MacroCollection))
    (hrec : ∀ t c c', rec t c = some (Except.ok c') →
      ∀ k v, lookupA c.macros k = some v → lookupA c'.macros k = some v)
    (template : Template) (coll coll' : MacroCollection)
    (h : visit_template tera rec template coll = some (Except.ok coll')) :
    ∀ k v, lookupA coll.macros k = some v → lookupA coll'.macros k = some v := by
  intro k v hk
  unfold visit_template at h
  split at h
  · simp only [Option.some.injEq, Except.ok.injEq] at h
    rw [← h]; exact hk
  · rename_i hc
    split at h
    · exact absurd h (by simp)
    · exact absurd h (by simp)
    · rename_i mnm c2 hi
      have hk2 : lookupA c2.macros k = some v :=
        visit_imports_pres tera rec hrec _ _ coll _ c2 hi k v hk
      have hkne : k ≠ template.name := by
        intro he
        have : containsA coll.macros template.name = true :=
          (containsA_iff_lookupA coll.macros template.name).mpr ⟨v, he ▸ hk⟩
        exact hc this
      have hk3 : lookupA (insertA c2.macros template.name mnm) k = some v := by
        rw [lookupA_insertA_ne _ _ _ _ hkne]; exact hk2
      exact visit_parents_pres tera rec hrec _ _ coll' h k v hk3

theorem add_pres (tera : Tera) :
    ∀ fuel template coll coll',
      add_macros_from_template tera fuel template coll = some (Except.ok coll') →
      ∀ k v, lookupA coll.macros k = some v → lookupA coll'.macros k = some v := by
  intro fuel
  induction fuel with
  | zero => intro template coll coll' h; exact absurd h (by simp [add_macros_from_template])
  | succ fuel ih =>
    intro template coll coll' h
    exact visit_template_pres tera _ (fun t c c' hr => ih t c c' hr) template coll coll' h

theorem add_pres_contains (tera : Tera) (fuel : Nat)
    (template : Template) (coll coll' : MacroCollection)
    (h : add_macros_from_template tera fuel template coll = some (Except.ok coll'))
    (k : String) (hk : containsA coll.macros k = true) :
    containsA coll'.macros k = true := by
  obtain ⟨v, hv⟩ := (containsA_iff_lookupA _ _).mp hk
  exact (containsA_iff_lookupA _ _).mpr ⟨v, add_pres tera fuel template coll coll' h k v hv⟩

theorem contains_of_pres {c c' : MacroCollection}
    (pres : ∀ k v, lookupA c.macros k = some v → lookupA c'.macros k = some v)
    (k : String) (hk : containsA c.macros k = true) :
    containsA c'.macros k = true := by
  obtain ⟨v, hv⟩ := (containsA_iff_lookupA _ _).mp hk
  exact (containsA_iff_lookupA _ _).mpr ⟨v, pres k v hv⟩

/-! ### Membership: a processed template's name ends up in the collection -/

theorem visit_template_mem (tera : Tera)
    (rec : Template → MacroCollection → Option (Except TeraError MacroCollection))
    (hrec : ∀ t c c', rec t c = some (Except.ok c') →
      ∀ k v, lookupA c.macros k = some v → lookupA c'.macros k = some v)
    (template : Template) (coll coll' : MacroCollection)
    (h : visit_template tera rec template coll = some (Except.ok coll')) :
    containsA coll'.macros template.name = true := by
  unfold visit_template at h
  split at h
  · rename_i hc
    simp only [Option.some.injEq, Except.ok.injEq] at h
    rw [← h]; exact hc
  · split at h
    · exact absurd h (by simp)
    · exact absurd h (by simp)
    · rename_i mnm c2 hi
      have hk : lookupA (insertA c2.macros template.name mnm) template.name = some mnm :=
        lookupA_insertA_self _ _ _
      have := visit_parents_pres tera rec hrec _ _ coll' h template.name mnm hk
      exact (containsA_iff_lookupA _ _).mpr ⟨mnm, this⟩

theorem add_mem (tera : Tera) (fuel : Nat) (template : Template)
    (coll coll' : MacroCollection)
    (h : add_macros_from_template tera fuel template coll = some (Except.ok coll')) :
    containsA coll'.macros template.name = true := by
  cases fuel with
  | zero => exact absurd h (by simp [add_macros_from_template])
  | succ fuel =>
    exact visit_template_mem tera _ (fun t c c' hr => add_pres tera fuel t c c' hr)
      template coll coll' h

/-- The namespace map threaded through a successful import loop is exactly
the pure alias fold. -/
theorem visit_imports_built (tera : Tera)
    (rec : Template → MacroCollection → Option (Except TeraError MacroCollection)) :
    ∀ imports mnm coll mnm' coll',
      visit_imports tera rec imports mnm coll = some (Except.ok (mnm', coll')) →
      built_namespace_loop tera imports mnm = some mnm' := by
  intro imports
  induction imports with
  | nil =>
    intro mnm coll mnm' coll' h
    simp only [visit_imports, Option.some.injEq, Except.ok.injEq, Prod.mk.injEq] at h
    simp [built_namespace_loop, h.1]
  | cons fa rest ih =>
    intro mnm coll mnm' coll' h
    obtain ⟨filename, ns⟩ := fa
    simp only [visit_imports] at h
    split at h
    · exact absurd h (by simp)
    · rename_i mt hg
      split at h
      · exact absurd h (by simp)
      · exact absurd h (by simp)
      · rename_i c2 hr
        simp only [built_namespace_loop, hg]
        exact ih _ c2 mnm' coll' h

/-- Every import filename of a successful import loop gets its own top-level
entry in the resulting collection. -/
theorem visit_imports_targets (tera : Tera)
    (rec : Template → MacroCollection → Option (Except TeraError MacroCollection))
    (hrec : ∀ t c c', rec t c = some (Except.ok c') →
      ∀ k v, lookupA c.macros k = some v → lookupA c'.macros k = some v)
    (hmem : ∀ t c c', rec t c = some (Except.ok c') →
      containsA c'.macros t.name = true) :
    ∀ imports mnm coll mnm' coll',
      visit_imports tera rec imports mnm coll = some (Except.ok (mnm', coll')) →
      ∀ fa, fa ∈ imports → containsA coll'.macros fa.1 = true := by
  intro imports
  induction imports with
  | nil => intro mnm coll mnm' coll' h fa hfa; cases hfa
  | cons hd rest ih =>
    intro mnm coll mnm' coll' h fa hfa
    obtain ⟨filename, ns⟩ := hd
    simp only [visit_imports] at h
    split at h
    · exact absurd h (by simp)
    · rename_i mt hg
      split at h
      · exact absurd h (by simp)
      · exact absurd h (by simp)
      · rename_i c2 hr
        cases hfa with
        | head =>
          have h1 : containsA c2.macros mt.name = true := hmem mt coll c2 hr
          rw [get_template_name tera filename mt hg] at h1
          exact contains_of_pres
            (fun k v hv => visit_imports_pres tera rec hrec _ _ c2 _ coll' h k v hv)
            filename h1
        | tail _ hmem2 => exact ih _ c2 mnm' coll' h fa hmem2

/-! ### The shape invariant is preserved by every builder step -/

theorem visit_imports_shaped (tera : Tera)
    (rec : Template → MacroCollection → Option (Except TeraError MacroCollection))
    (hrec : ∀ t c c', Tera.get_template tera t.name = some t → Shaped tera c →
      rec t c = some (Except.ok c') → Shaped tera c') :
    ∀ imports mnm coll mnm' coll', Shaped tera coll →
      visit_imports tera rec imports mnm coll = some (Except.ok (mnm', coll')) →
      Shaped tera coll' := by
  intro imports
  induction imports with
  | nil =>
    intro mnm coll mnm' coll' hsh h
    simp only [visit_imports, Option.some.injEq, Except.ok.injEq, Prod.mk.injEq] at h
    rw [← h.2]; exact hsh
  | cons fa rest ih =>
    intro mnm coll mnm' coll' hsh h
    obtain ⟨filename, ns⟩ := fa
    simp only [visit_imports] at h
    split at h
    · exact absurd h (by simp)
    · rename_i mt hg
      split at h
      · exact absurd h (by simp)
      · exact absurd h (by simp)
      · rename_i c2 hr
        exact ih _ c2 mnm' coll'
          (hrec mt coll c2 (get_template_canonical tera filename mt hg) hsh hr) h

theorem visit_parents_shaped (tera : Tera)
    (rec : Template → MacroCollection → Option (Except TeraError MacroCollection))
    (hrec : ∀ t c c', Tera.get_template tera t.name = some t → Shaped tera c →
      rec t c = some (Except.ok c') → Shaped tera c') :
    ∀ parents coll coll', Shaped tera coll →
      visit_parents tera rec parents coll = some (Except.ok coll') →
      Shaped tera coll' := by
  intro parents
  induction parents with
  | nil =>
    intro coll coll' hsh h
    simp only [visit_parents, Option.some.injEq, Except.ok.injEq] at h
    rw [← h]; exact hsh
  | cons p rest ih =>
    intro coll coll' hsh h
    simp only [visit_parents] at h
    split at h
    · exact absurd h (by simp)
    · rename_i pt hg
      split at h
      · exact absurd h (by simp)
      · exact absurd h (by simp)
      · rename_i c2 hr
        exact ih c2 coll'
          (hrec pt coll c2 (get_template_canonical tera p pt hg) hsh hr) h

theorem visit_template_shaped (tera : Tera)
    (rec : Template → MacroCollection → Option (Except TeraError MacroCollection))
    (hrec : ∀ t c c', Tera.get_template tera t.name = some t → Shaped tera c →
      rec t c = some (Except.ok c') → Shaped tera c')
    (template : Template) (coll coll' : MacroCollection)
    (htpl : Tera.get_template tera template.name = some template)
    (hsh : Shaped tera coll)
    (h : visit_template tera rec template coll = some (Except.ok coll')) :
    Shaped tera coll' := by
  unfold visit_template at h
  split at h
  · simp only [Option.some.injEq, Except.ok.injEq] at h
    rw [← h]; exact hsh
  · split at h
    · exact absurd h (by simp)
    · exact absurd h (by simp)
    · rename_i mnm c2 hi
      have hsh2 : Shaped tera c2 := visit_imports_shaped tera rec hrec _ _ coll _ c2 hsh hi
      have hbuilt : built_namespace_map tera template = some mnm := by
        have hb := visit_imports_built tera rec _ _ coll mnm c2 hi
        simpa [built_namespace_map, self_namespace_map] using hb
      have hsh3 : Shaped tera ⟨insertA c2.macros template.name mnm⟩ := by
        intro k v hv
        rw [lookupA_insertA] at hv
        split at hv
        · rename_i hk
          rw [hk]
          simp only [Option.some.injEq] at hv
          exact ⟨template, htpl, hv ▸ hbuilt⟩
        · exact hsh2 k v hv
      exact visit_parents_shaped tera rec hrec _ _ coll' hsh3 h

theorem add_shaped (tera : Tera) :
    ∀ fuel template coll coll',
      Tera.get_template tera template.name = some template → Shaped tera coll →
      add_macros_from_template tera fuel template coll = some (Except.ok coll') →
      Shaped tera coll' := by
  intro fuel
  induction fuel with
  | zero =>
    intro template coll coll' _ _ h
    exact absurd h (by simp [add_macros_from_template])
  | succ fuel ih =>
    intro template coll coll' htpl hsh h
    exact visit_template_shaped tera _
      (fun t c c' ht hs hr => ih t c c' ht hs hr) template coll coll' htpl hsh h

theorem containsA_insertA {α : Type} (l : List (String × α)) (k k' : String) (v : α) :
    containsA (insertA l k v) k' = true ↔ (k' = k ∨ containsA l k' = true) := by
  rw [containsA_iff_lookupA, containsA_iff_lookupA]
  by_cases h : k' = k
  · simp [lookupA_insertA, h]
  · simp [lookupA_insertA, h]

/-! ### Successor-closure of the key set, with pending parent obligations -/

theorem visit_imports_closed (tera : Tera)
    (rec : Template → MacroCollection → Option (Except TeraError MacroCollection))
    (hrec : ∀ (Pb : String → String → Prop) t c c',
      Tera.get_template tera t.name = some t → ClosedExcept tera c Pb →
      rec t c = some (Except.ok c') → ClosedExcept tera c' Pb)
    (Pb : String → String → Prop) :
    ∀ imports mnm coll mnm' coll', ClosedExcept tera coll Pb →
      visit_imports tera rec imports mnm coll = some (Except.ok (mnm', coll')) →
      ClosedExcept tera coll' Pb := by
  intro imports
  induction imports with
  | nil =>
    intro mnm coll mnm' coll' hcl h
    simp only [visit_imports, Option.some.injEq, Except.ok.injEq, Prod.mk.injEq] at h
    rw [← h.2]; exact hcl
  | cons fa rest ih =>
    intro mnm coll mnm' coll' hcl h
    obtain ⟨filename, ns⟩ := fa
    simp only [visit_imports] at h
    split at h
    · exact absurd h (by simp)
    · rename_i mt hg
      split at h
      · exact absurd h (by simp)
      · exact absurd h (by simp)
      · rename_i c2 hr
        exact ih _ c2 mnm' coll'
          (hrec Pb mt coll c2 (get_template_canonical tera filename mt hg) hcl hr) h

theorem visit_parents_closed (tera : Tera)
    (rec : Template → MacroCollection → Option (Except TeraError MacroCollection))
    (hrec : ∀ (Pb : String → String → Prop) t c c',
      Tera.get_template tera t.name = some t → ClosedExcept tera c Pb →
      rec t c = some (Except.ok c') → ClosedExcept tera c' Pb)
    (hmem : ∀ t c c', rec t c = some (Except.ok c') →
      containsA c'.macros t.name = true)
    (Pb : String → String → Prop) (nm : String) :
    ∀ parents coll coll',
      ClosedExcept tera coll (fun k k' => Pb k k' ∨ (k = nm ∧ k' ∈ parents)) →
      visit_parents tera rec parents coll = some (Except.ok coll') →
      ClosedExcept tera coll' Pb := by
  intro parents
  induction parents with
  | nil =>
    intro coll coll' hcl h
    simp only [visit_parents, Option.some.injEq, Except.ok.injEq] at h
    rw [← h]
    intro k k' hk hsucc
    rcases hcl k k' hk hsucc with hin | hpb | ⟨_, hmem2⟩
    · exact Or.inl hin
    · exact Or.inr hpb
    · cases hmem2
  | cons p rest ih =>
    intro coll coll' hcl h
    simp only [visit_parents] at h
    split at h
    · exact absurd h (by simp)
    · rename_i pt hg
      split at h
      · exact absurd h (by simp)
      · exact absurd h (by simp)
      · rename_i c2 hr
        have hcl2 : ClosedExcept tera c2
            (fun k k' => Pb k k' ∨ (k = nm ∧ k' ∈ p :: rest)) :=
          hrec _ pt coll c2 (get_template_canonical tera p pt hg) hcl hr
        have hcl3 : ClosedExcept tera c2
            (fun k k' => Pb k k' ∨ (k = nm ∧ k' ∈ rest)) := by
          intro k k' hk hsucc
          rcases hcl2 k k' hk hsucc with hin | hpb | ⟨hknm, hmem2⟩
          · exact Or.inl hin
          · exact Or.inr (Or.inl hpb)
          · cases hmem2 with
            | head =>
              have h1 : containsA c2.macros pt.name = true := hmem pt coll c2 hr
              rw [get_template_name tera p pt hg] at h1
              exact Or.inl h1
            | tail _ hmem3 => exact Or.inr (Or.inr ⟨hknm, hmem3⟩)
        exact ih c2 coll' hcl3 h

theorem visit_template_closed (tera : Tera)
    (rec : Template → MacroCollection → Option (Except TeraError MacroCollection))
    (hrec : ∀ (Pb : String → String → Prop) t c c',
      Tera.get_template tera t.name = some t → ClosedExcept tera c Pb →
      rec t c = some (Except.ok c') → ClosedExcept tera c' Pb)
    (hpres : ∀ t c c', rec t c = some (Except.ok c') →
      ∀ k v, lookupA c.macros k = some v → lookupA c'.macros k = some v)
    (hmem : ∀ t c c', rec t c = some (Except.ok c') →
      containsA c'.macros t.name = true)
    (Pb : String → String → Prop)
    (template : Template) (coll coll' : MacroCollection)
    (htpl : Tera.get_template tera template.name = some template)
    (hcl : ClosedExcept tera coll Pb)
    (h : visit_template tera rec template coll = some (Except.ok coll')) :
    ClosedExcept tera coll' Pb := by
  unfold visit_template at h
  split at h
  · simp only [Option.some.injEq, Except.ok.injEq] at h
    rw [← h]; exact hcl
  · split at h
    · exact absurd h (by simp)
    · exact absurd h (by simp)
    · rename_i mnm c2 hi
      have hcl2 : ClosedExcept tera c2 Pb :=
        visit_imports_closed tera rec hrec Pb _ _ coll _ c2 hcl hi
      have hcl3 : ClosedExcept tera ⟨insertA c2.macros template.name mnm⟩
          (fun k k' => Pb k k' ∨ (k = template.name ∧ k' ∈ template.parents)) := by
        intro k k' hk hsucc
        rcases (containsA_insertA _ _ _ _).mp hk with hknm | hk2
        · obtain ⟨t, hgt, hedge⟩ := hsucc
          rw [hknm, htpl] at hgt
          have ht : t = template := by injection hgt with h1; exact h1.symm
          subst ht
          cases hedge with
          | inl himp =>
            obtain ⟨fa, hfa, hfa1⟩ := List.mem_map.mp himp
            have h1 : containsA c2.macros fa.1 = true :=
              visit_imports_targets tera rec hpres hmem _ _ coll _ c2 hi fa hfa
            rw [hfa1] at h1
            exact Or.inl ((containsA_insertA _ _ _ _).mpr (Or.inr h1))
          | inr hpar => exact Or.inr (Or.inr ⟨hknm, hpar⟩)
        · rcases hcl2 k k' hk2 hsucc with hin | hpb
          · exact Or.inl ((containsA_insertA _ _ _ _).mpr (Or.inr hin))
          · exact Or.inr (Or.inl hpb)
      exact visit_parents_closed tera rec hrec hmem Pb template.name _ _ coll' hcl3 h

theorem add_closed (tera : Tera) :
    ∀ fuel (Pb : String → String → Prop) template coll coll',
      Tera.get_template tera template.name = some template →
      ClosedExcept tera coll Pb →
      add_macros_from_template tera fuel template coll = some (Except.ok coll') →
      ClosedExcept tera coll' Pb := by
  intro fuel
  induction fuel with
  | zero =>
    intro Pb template coll coll' _ _ h
    exact absurd h (by simp [add_macros_from_template])
  | succ fuel ih =>
    intro Pb template coll coll' htpl hcl h
    exact visit_template_closed tera _
      (fun Pb t c c' ht hc hr => ih Pb t c c' ht hc hr)
      (fun t c c' hr => add_pres tera fuel t c c' hr)
      (fun t c c' hr => add_mem tera fuel t c c' hr)
      Pb template coll coll' htpl hcl h

/-- In a successor-closed collection, every name reachable from a present
name is present. -/
theorem closed_reach (tera : Tera) (coll : MacroCollection)
    (hcl : ClosedExcept tera coll (fun _ _ => False)) :
    ∀ k k', reach_name tera k k' → containsA coll.macros k = true →
      containsA coll.macros k' = true := by
  intro k k' hr
  induction hr with
  | refl => exact id
  | step hs _ ih =>
    intro hk
    rename_i k1 k2 k3 _
    rcases hcl k1 k2 hk hs with hin | hf
    · exact ih hin
    · cases hf

/-! ### Fuel monotonicity and termination on acyclic graphs -/

theorem visit_imports_mono (tera : Tera)
    (rec rec' : Template → MacroCollection → Option (Except TeraError MacroCollection))
    (hmono : ∀ t c r, rec t c = some r → rec' t c = some r) :
    ∀ imports mnm coll r,
      visit_imports tera rec imports mnm coll = some r →
      visit_imports tera rec' imports mnm coll = some r := by
  intro imports
  induction imports with
  | nil => intro mnm coll r h; exact h
  | cons fa rest ih =>
    intro mnm coll r h
    obtain ⟨filename, ns⟩ := fa
    cases hg : Tera.get_template tera filename with
    | none =>
      simp only [visit_imports, hg] at h ⊢
      exact h
    | some mt =>
      simp only [visit_imports, hg] at h ⊢
      cases hr : rec mt coll with
      | none => rw [hr] at h; exact absurd h (by simp)
      | some r0 =>
        rw [hr] at h
        rw [hmono mt coll r0 hr]
        cases r0 with
        | error e => exact h
        | ok c2 => exact ih _ c2 r h

theorem visit_parents_mono (tera : Tera)
    (rec rec' : Template → MacroCollection → Option (Except TeraError MacroCollection))
    (hmono : ∀ t c r, rec t c = some r → rec' t c = some r) :
    ∀ parents coll r,
      visit_parents tera rec parents coll = some r →
      visit_parents tera rec' parents coll = some r := by
  intro parents
  induction parents with
  | nil => intro coll r h; exact h
  | cons p rest ih =>
    intro coll r h
    cases hg : Tera.get_template tera p with
    | none =>
      simp only [visit_parents, hg] at h ⊢
      exact h
    | some pt =>
      simp only [visit_parents, hg] at h ⊢
      cases hr : rec pt coll with
      | none => rw [hr] at h; exact absurd h (by simp)
      | some r0 =>
        rw [hr] at h
        rw [hmono pt coll r0 hr]
        cases r0 with
        | error e => exact h
        | ok c2 => exact ih c2 r h

theorem visit_template_mono (tera : Tera)
    (rec rec' : Template → MacroCollection → Option (Except TeraError MacroCollection))
    (hmono : ∀ t c r, rec t c = some r → rec' t c = some r)
    (template : Template) (coll : MacroCollection) (r : Except TeraError MacroCollection)
    (h : visit_template tera rec template coll = some r) :
    visit_template tera rec' template coll = some r := by
  unfold visit_template at h ⊢
  split at h
  · rename_i hc
    rw [if_pos hc]
    exact h
  · rename_i hc
    rw [if_neg hc]
    split at h
    · exact absurd h (by simp)
    · rename_i e hi
      rw [visit_imports_mono tera rec rec' hmono _ _ coll _ hi]
      exact h
    · rename_i mnm c2 hi
      rw [visit_imports_mono tera rec rec' hmono _ _ coll _ hi]
      exact visit_parents_mono tera rec rec' hmono _ _ r h

theorem add_mono (tera : Tera) :
    ∀ fuel fuel', fuel ≤ fuel' →
      ∀ template coll r,
        add_macros_from_template tera fuel template coll = some r →
        add_macros_from_template tera fuel' template coll = some r := by
  intro fuel
  induction fuel with
  | zero =>
    intro fuel' _ template coll r h
    exact absurd h (by simp [add_macros_from_template])
  | succ fuel ih =>
    intro fuel' hle template coll r h
    obtain ⟨f2, rfl⟩ : ∃ f2, fuel' = f2 + 1 := ⟨fuel' - 1, by omega⟩
    have hle2 : fuel ≤ f2 := by omega
    exact visit_template_mono tera _ _
      (fun t c r2 h2 => ih f2 hle2 t c r2 h2) template coll r h

theorem visit_imports_total (tera : Tera)
    (rec : Template → MacroCollection → Option (Except TeraError MacroCollection)) :
    ∀ imports mnm coll,
      (∀ fa, fa ∈ imports → ∀ t', Tera.get_template tera fa.1 = some t' →
        ∀ c, (rec t' c).isSome) →
      (visit_imports tera rec imports mnm coll).isSome := by
  intro imports
  induction imports with
  | nil => intro mnm coll _; simp [visit_imports]
  | cons fa rest ih =>
    intro mnm coll htot
    obtain ⟨filename, ns⟩ := fa
    cases hg : Tera.get_template tera filename with
    | none => simp [visit_imports, hg]
    | some mt =>
      have hs : (rec mt coll).isSome :=
        htot (filename, ns) (List.mem_cons_self _ _) mt hg coll
      obtain ⟨r, hr⟩ := Option.isSome_iff_exists.mp hs
      cases r with
      | error e => simp [visit_imports, hg, hr]
      | ok c2 =>
        have hstep : visit_imports tera rec ((filename, ns) :: rest) mnm coll =
            visit_imports tera rec rest (insertA mnm ns (filename, mt.macros)) c2 := by
          simp [visit_imports, hg, hr]
        rw [hstep]
        exact ih _ c2 (fun fa2 hfa2 t' hg2 c => htot fa2 (List.mem_cons_of_mem _ hfa2) t' hg2 c)

theorem visit_parents_total (tera : Tera)
    (rec : Template → MacroCollection → Option (Except TeraError MacroCollection)) :
    ∀ parents coll,
      (∀ p, p ∈ parents → ∀ t', Tera.get_template tera p = some t' →
        ∀ c, (rec t' c).isSome) →
      (visit_parents tera rec parents coll).isSome := by
  intro parents
  induction parents with
  | nil => intro coll _; simp [visit_parents]
  | cons p rest ih =>
    intro coll htot
    cases hg : Tera.get_template tera p with
    | none => simp [visit_parents, hg]
    | some pt =>
      have hs : (rec pt coll).isSome := htot p (List.mem_cons_self _ _) pt hg coll
      obtain ⟨r, hr⟩ := Option.isSome_iff_exists.mp hs
      cases r with
      | error e => simp [visit_parents, hg, hr]
      | ok c2 =>
        have hstep : visit_parents tera rec (p :: rest) coll =
            visit_parents tera rec rest c2 := by
          simp [visit_parents, hg, hr]
        rw [hstep]
        exact ih c2 (fun p2 hp2 t' hg2 c => htot p2 (List.mem_cons_of_mem _ hp2) t' hg2 c)

theorem visit_template_total (tera : Tera)
    (rec : Template → MacroCollection → Option (Except TeraError MacroCollection))
    (template : Template) (coll : MacroCollection)
    (himp : ∀ fa, fa ∈ template.imported_macro_files →
      ∀ t', Tera.get_template tera fa.1 = some t' → ∀ c, (rec t' c).isSome)
    (hpar : ∀ p, p ∈ template.parents →
      ∀ t', Tera.get_template tera p = some t' → ∀ c, (rec t' c).isSome) :
    (visit_template tera rec template coll).isSome := by
  unfold visit_template
  split
  · simp
  · obtain ⟨r, hr⟩ := Option.isSome_iff_exists.mp
      (visit_imports_total tera rec template.imported_macro_files _ coll himp)
    rw [hr]
    cases r with
    | error e => simp
    | ok pr =>
      obtain ⟨mnm, c2⟩ := pr
      exact visit_parents_total tera rec template.parents _ hpar

/-- On a registry whose import/inheritance graph admits a rank function that
strictly decreases along every edge (equivalently, is acyclic), the builder
terminates: any fuel above the root's rank is enough. -/
theorem add_isSome_of_rank (tera : Tera) (rank : Template → Nat)
    (hrank : ∀ t t', tpl_succ tera t t' → rank t' < rank t) :
    ∀ fuel template coll, rank template < fuel →
      (add_macros_from_template tera fuel template coll).isSome := by
  intro fuel
  induction fuel with
  | zero => intro template coll h; exact absurd h (Nat.not_lt_zero _)
  | succ fuel ih =>
    intro template coll hlt
    show (visit_template tera
      (fun t c => add_macros_from_template tera fuel t c) template coll).isSome
    apply visit_template_total
    · intro fa hfa t' hg c
      have hsucc : tpl_succ tera template t' := Or.inl ⟨fa, hfa, hg⟩
      have := hrank template t' hsucc
      exact ih t' c (by omega)
    · intro p hp t' hg c
      have hsucc : tpl_succ tera template t' := Or.inr ⟨p, hp, hg⟩
      have := hrank template t' hsucc
      exact ih t' c (by omega)

/-! ### What the computed namespace map contains -/

theorem built_loop_last_none (tera : Tera) :
    ∀ imports mnm mnm' a, last_import imports a = none →
      built_namespace_loop tera imports mnm = some mnm' →
      lookupA mnm' a = lookupA mnm a := by
  intro imports
  induction imports with
  | nil =>
    intro mnm mnm' a _ hb
    simp only [built_namespace_loop, Option.some.injEq] at hb
    rw [← hb]
  | cons fa rest ih =>
    intro mnm mnm' a hl hb
    obtain ⟨f0, a0⟩ := fa
    cases hrest : last_import rest a with
    | some f1 => simp [last_import, hrest] at hl
    | none =>
      simp only [last_import, hrest] at hl
      have hne : a ≠ a0 := by
        intro he
        rw [he] at hl
        simp at hl
      cases hg : Tera.get_template tera f0 with
      | none => simp [built_namespace_loop, hg] at hb
      | some mt0 =>
        simp only [built_namespace_loop, hg] at hb
        rw [ih _ mnm' a hrest hb]
        exact lookupA_insertA_ne _ _ _ _ hne

theorem built_loop_last_some (tera : Tera) :
    ∀ imports mnm mnm' a f, last_import imports a = some f →
      built_namespace_loop tera imports mnm = some mnm' →
      ∃ mt, Tera.get_template tera f = some mt ∧
        lookupA mnm' a = some (f, mt.macros) := by
  intro imports
  induction imports with
  | nil => intro mnm mnm' a f hl; simp [last_import] at hl
  | cons fa rest ih =>
    intro mnm mnm' a f hl hb
    obtain ⟨f0, a0⟩ := fa
    cases hg : Tera.get_template tera f0 with
    | none => simp [built_namespace_loop, hg] at hb
    | some mt0 =>
      simp only [built_namespace_loop, hg] at hb
      cases hrest : last_import rest a with
      | some f1 =>
        simp only [last_import, hrest, Option.some.injEq] at hl
        rw [← hl]
        exact ih _ mnm' a f1 hrest hb
      | none =>
        simp only [last_import, hrest] at hl
        have ha : (a0 == a) = true := by
          by_contra hne
          rw [Bool.not_eq_true] at hne
          rw [hne] at hl
          cases hl
        rw [ha] at hl
        simp only [if_true, Option.some.injEq] at hl
        have haeq : a = a0 := (by simpa using ha : a0 = a).symm
        refine ⟨mt0, hl ▸ hg, ?_⟩
        rw [built_loop_last_none tera rest _ mnm' a hrest hb, haeq,
          lookupA_insertA_self, ← hl]

theorem last_import_eq_none :
    ∀ (imports : List (String × String)) (a : String),
      last_import imports a = none ↔ a ∉ imports.map Prod.snd := by
  intro imports
  induction imports with
  | nil => intro a; simp [last_import]
  | cons fa rest ih =>
    intro a
    obtain ⟨f0, a0⟩ := fa
    constructor
    · intro hl hmem
      cases hrest : last_import rest a with
      | some f1 => simp [last_import, hrest] at hl
      | none =>
        simp only [last_import, hrest] at hl
        simp only [List.map_cons, List.mem_cons] at hmem
        rcases hmem with he | hmem2
        · rw [he] at hl; simp at hl
        · exact (ih a).mp hrest hmem2
    · intro hmem
      simp only [List.map_cons, List.mem_cons, not_or] at hmem
      have hrest : last_import rest a = none := (ih a).mpr hmem.2
      have hne : (a0 == a) = false := by
        simp only [beq_eq_false_iff_ne, ne_eq]
        exact fun he => hmem.1 (by rw [he])
      simp [last_import, hrest, hne]

theorem last_import_of_nodup :
    ∀ (imports : List (String × String)) (f a : String),
      (imports.map Prod.snd).Nodup → (f, a) ∈ imports →
      last_import imports a = some f := by
  intro imports
  induction imports with
  | nil => intro f a _ hm; cases hm
  | cons fa rest ih =>
    intro f a hnd hm
    obtain ⟨f0, a0⟩ := fa
    simp only [List.map_cons, List.nodup_cons] at hnd
    cases hm with
    | head =>
      have hrest : last_import rest a = none := (last_import_eq_none rest a).mpr hnd.1
      simp [last_import, hrest]
    | tail _ hm2 =>
      have hrest : last_import rest a = some f := ih f a hnd.2 hm2
      simp [last_import, hrest]

/-- The `"self"` entry of the computed namespace map, provided no import
alias is literally `"self"` (which would overwrite it). -/
theorem built_map_self (tera : Tera) (t : Template) (mnm' : MacroNamespaceMap)
    (hs : "self" ∉ t.imported_macro_files.map Prod.snd)
    (hb : built_namespace_map tera t = some mnm') :
    lookupA mnm' "self" =
      if t.macros.isEmpty then none else some (t.name, t.macros) := by
  have hl : last_import t.imported_macro_files "self" = none :=
    (last_import_eq_none _ _).mpr hs
  rw [built_loop_last_none tera _ _ mnm' "self" hl hb]
  by_cases he : t.macros.isEmpty
  · simp [self_namespace_map, he, lookupA]
  · simp [self_namespace_map, he, lookupA_insertA_self]

/-- Every value stored in a computed namespace map points at a registry
template and at that template's own macro map. -/
theorem built_loop_values (tera : Tera) :
    ∀ imports mnm mnm',
      built_namespace_loop tera imports mnm = some mnm' →
      (∀ a o m, lookupA mnm a = some (o, m) →
        ∃ ot, Tera.get_template tera o = some ot ∧ m = ot.macros) →
      ∀ a o m, lookupA mnm' a = some (o, m) →
        ∃ ot, Tera.get_template tera o = some ot ∧ m = ot.macros := by
  intro imports
  induction imports with
  | nil =>
    intro mnm mnm' hb hin
    simp only [built_namespace_loop, Option.some.injEq] at hb
    rw [← hb]; exact hin
  | cons fa rest ih =>
    intro mnm mnm' hb hin
    obtain ⟨f0, a0⟩ := fa
    cases hg : Tera.get_template tera f0 with
    | none => simp [built_namespace_loop, hg] at hb
    | some mt0 =>
      simp only [built_namespace_loop, hg] at hb
      refine ih _ mnm' hb ?_
      intro a o m hlook
      rw [lookupA_insertA] at hlook
      split at hlook
      · simp only [Option.some.injEq] at hlook
        obtain ⟨ho, hm⟩ := Prod.mk.injEq .. ▸ hlook
        exact ⟨mt0, by rw [← ho]; exact hg, hm.symm⟩
      · exact hin a o m hlook

theorem built_map_values (tera : Tera) (t : Template) (mnm' : MacroNamespaceMap)
    (ht : Tera.get_template tera t.name = some t)
    (hb : built_namespace_map tera t = some mnm') :
    ∀ a o m, lookupA mnm' a = some (o, m) →
      ∃ ot, Tera.get_template tera o = some ot ∧ m = ot.macros := by
  refine built_loop_values tera _ _ mnm' hb ?_
  intro a o m hlook
  unfold self_namespace_map at hlook
  split at hlook
  · simp [lookupA] at hlook
  · rw [lookupA_insertA] at hlook
    split at hlook
    · simp only [Option.some.injEq] at hlook
      obtain ⟨ho, hm⟩ := Prod.mk.injEq .. ▸ hlook
      exact ⟨t, by rw [← ho]; exact ht, hm.symm⟩
    · simp [lookupA] at hlook

/-! ### Direct consequences of the `lookup_macro` definition -/

theorem lookupMacro_ok (coll : MacroCollection) (k ns mac : String)
    (mnm : MacroNamespaceMap) (o : String) (m : MacroDefinitionMap)
    (d : MacroDefinition)
    (h1 : lookupA coll.macros k = some mnm)
    (h2 : lookupA mnm ns = some (o, m))
    (h3 : lookupA m mac = some d) :
    lookupMacro coll k ns mac = Except.ok (o, d) := by
  unfold lookupMacro
  rw [h1]
  simp [h2, h3]

theorem lookupMacro_ns_error (coll : MacroCollection) (k ns mac : String)
    (h : (lookupA coll.macros k).bind (fun nm => lookupA nm ns) = none) :
    lookupMacro coll k ns mac = Except.error (TeraError.namespaceNotFound ns k) := by
  unfold lookupMacro
  rw [h]

theorem lookupMacro_mac_error (coll : MacroCollection) (k ns mac : String)
    (nsv : String × MacroDefinitionMap)
    (h : (lookupA coll.macros k).bind (fun nm => lookupA nm ns) = some nsv)
    (h2 : lookupA nsv.2 mac = none) :
    lookupMacro coll k ns mac = Except.error (TeraError.macroNotFound ns mac k) := by
  unfold lookupMacro
  rw [h]
  simp only [h2]

/-! ### Instrumented builder: same computation, also returning the list of
template names whose body past the visited check ran, in execution order -/

def visit_imports_log (tera : Tera)
    (rec : Template → MacroCollection →
      Option (Except TeraError MacroCollection × List String)) :
    List (String × String) → MacroNamespaceMap → MacroCollection →
    Option (Except TeraError (MacroNamespaceMap × MacroCollection) × List String)
  | [], mnm, coll => some (Except.ok (mnm, coll), [])
  | (filename, ns) :: rest, mnm, coll =>
    match Tera.get_template tera filename with
    | none => some (Except.error (TeraError.templateNotFound filename), [])
    | some macro_tpl =>
      match rec macro_tpl coll with
      | none => none
      | some (Except.error e, vis) => some (Except.error e, vis)
      | some (Except.ok coll2, vis) =>
        match visit_imports_log tera rec rest
            (insertA mnm ns (filename, macro_tpl.macros)) coll2 with
        | none => none
        | some (r, vis2) => some (r, vis ++ vis2)

def visit_parents_log (tera : Tera)
    (rec : Template → MacroCollection →
      Option (Except TeraError MacroCollection × List String)) :
    List String → MacroCollection →
    Option (Except TeraError MacroCollection × List String)
  | [], coll => some (Except.ok coll, [])
  | parent :: rest, coll =>
    match Tera.get_template tera parent with
    | none => some (Except.error (TeraError.templateNotFound parent), [])
    | some parent_template =>
      match rec parent_template coll with
      | none => none
      | some (Except.error e, vis) => some (Except.error e, vis)
      | some (Except.ok coll2, vis) =>
        match visit_parents_log tera rec rest coll2 with
        | none => none
        | some (r, vis2) => some (r, vis ++ vis2)

def visit_template_log (tera : Tera)
    (rec : Template → MacroCollection →
      Option (Except TeraError MacroCollection × List String))
    (template : Template) (coll : MacroCollection) :
    Option (Except TeraError MacroCollection × List String) :=
  if containsA coll.macros template.name then
    some (Except.ok coll, [])
  else
    match visit_imports_log tera rec template.imported_macro_files
        (if template.macros.isEmpty then []
         else insertA [] "self" (template.name, template.macros)) coll with
    | none => none
    | some (Except.error e, vis) => some (Except.error e, template.name :: vis)
    | some (Except.ok (mnm, coll2), vis) =>
      match visit_parents_log tera rec template.parents
          ⟨insertA coll2.macros template.name mnm⟩ with
      | none => none
      | some (r, vis2) => some (r, template.name :: (vis ++ vis2))

def add_macros_log (tera : Tera) :
    Nat → Template → MacroCollection →
    Option (Except TeraError MacroCollection × List String)
  | 0, _, _ => none
  | fuel + 1, template, coll =>
    visit_template_log tera (fun t c => add_macros_log tera fuel t c) template coll

/-! ### The instrumented builder erases to the plain one -/

theorem visit_imports_log_erase (tera : Tera)
    (rec : Template → MacroCollection →
      Option (Except TeraError MacroCollection × List String))
    (recp : Template → MacroCollection → Option (Except TeraError MacroCollection))
    (hrec : ∀ t c, (rec t c).map Prod.fst = recp t c) :
    ∀ imports mnm coll,
      (visit_imports_log tera rec imports mnm coll).map Prod.fst =
        visit_imports tera recp imports mnm coll := by
  intro imports
  induction imports with
  | nil => intro mnm coll; rfl
  | cons fa rest ih =>
    intro mnm coll
    obtain ⟨filename, ns⟩ := fa
    cases hg : Tera.get_template tera filename with
    | none => simp [visit_imports_log, visit_imports, hg]
    | some mt =>
      cases hr : rec mt coll with
      | none =>
        have hp : recp mt coll = none := by rw [← hrec mt coll, hr]; rfl
        simp [visit_imports_log, visit_imports, hg, hr, hp]
      | some rv =>
        obtain ⟨r0, vis0⟩ := rv
        have hp : recp mt coll = some r0 := by rw [← hrec mt coll, hr]; rfl
        cases r0 with
        | error e => simp [visit_imports_log, visit_imports, hg, hr, hp]
        | ok c2 =>
          have hih := ih (insertA mnm ns (filename, mt.macros)) c2
          cases hi : visit_imports_log tera rec rest
              (insertA mnm ns (filename, mt.macros)) c2 with
          | none =>
            rw [hi] at hih
            simp [visit_imports_log, visit_imports, hg, hr, hp, hi, ← hih]
          | some rv2 =>
            obtain ⟨r2, vis2⟩ := rv2
            rw [hi] at hih
            simp [visit_imports_log, visit_imports, hg, hr, hp, hi, ← hih]

theorem visit_parents_log_erase (tera : Tera)
    (rec : Template → MacroCollection →
      Option (Except TeraError MacroCollection × List String))
    (recp : Template → MacroCollection → Option (Except TeraError MacroCollection))
    (hrec : ∀ t c, (rec t c).map Prod.fst = recp t c) :
    ∀ parents coll,
      (visit_parents_log tera rec parents coll).map Prod.fst =
        visit_parents tera recp parents coll := by
  intro parents
  induction parents with
  | nil => intro coll; rfl
  | cons p rest ih =>
    intro coll
    cases hg : Tera.get_template tera p with
    | none => simp [visit_parents_log, visit_parents, hg]
    | some pt =>
      cases hr : rec pt coll with
      | none =>
        have hp : recp pt coll = none := by rw [← hrec pt coll, hr]; rfl
        simp [visit_parents_log, visit_parents, hg, hr, hp]
      | some rv =>
        obtain ⟨r0, vis0⟩ := rv
        have hp : recp pt coll = some r0 := by rw [← hrec pt coll, hr]; rfl
        cases r0 with
        | error e => simp [visit_parents_log, visit_parents, hg, hr, hp]
        | ok c2 =>
          have hih := ih c2
          cases hi : visit_parents_log tera rec rest c2 with
          | none =>
            rw [hi] at hih
            simp [visit_parents_log, visit_parents, hg, hr, hp, hi, ← hih]
          | some rv2 =>
            obtain ⟨r2, vis2⟩ := rv2
            rw [hi] at hih
            simp [visit_parents_log, visit_parents, hg, hr, hp, hi, ← hih]

theorem visit_template_log_erase (tera : Tera)
    (rec : Template → MacroCollection →
      Option (Except TeraError MacroCollection × List String))
    (recp : Template → MacroCollection → Option (Except TeraError MacroCollection))
    (hrec : ∀ t c, (rec t c).map Prod.fst = recp t c)
    (template : Template) (coll : MacroCollection) :
    (visit_template_log tera rec template coll).map Prod.fst =
      visit_template tera recp template coll := by
  unfold visit_template_log visit_template
  split
  · rfl
  · have hih := visit_imports_log_erase tera rec recp hrec
      template.imported_macro_files
      (if template.macros.isEmpty then []
       else insertA [] "self" (template.name, template.macros)) coll
    cases hi : visit_imports_log tera rec template.imported_macro_files
        (if template.macros.isEmpty then []
         else insertA [] "self" (template.name, template.macros)) coll with
    | none =>
      rw [hi] at hih
      rw [← hih]
      rfl
    | some rv =>
      obtain ⟨r0, vis0⟩ := rv
      rw [hi] at hih
      rw [← hih]
      cases r0 with
      | error e => rfl
      | ok pr =>
        obtain ⟨mnm, c2⟩ := pr
        simp only [Option.map_some']
        have hih2 := visit_parents_log_erase tera rec recp hrec template.parents
          ⟨insertA c2.macros template.name mnm⟩
        cases hp : visit_parents_log tera rec template.parents
            ⟨insertA c2.macros template.name mnm⟩ with
        | none =>
          rw [hp] at hih2
          rw [← hih2]
        | some rv2 =>
          obtain ⟨r2, vis2⟩ := rv2
          rw [hp] at hih2
          rw [← hih2]
          rfl

theorem add_macros_log_erase (tera : Tera) :
    ∀ fuel template coll,
      (add_macros_log tera fuel template coll).map Prod.fst =
        add_macros_from_template tera fuel template coll := by
  intro fuel
  induction fuel with
  | zero => intro template coll; rfl
  | succ fuel ih =>
    intro template coll
    exact visit_template_log_erase tera _ _ (fun t c => ih t c) template coll

theorem bool_false_of_not_true (b : Bool) (h : ¬b = true) : b = false := by
  cases b
  · rfl
  · exact absurd rfl h

/-! ### On acyclic graphs the body past the visited check runs at most once
per distinct template name -/

theorem visit_imports_log_nodup (tera : Tera) (rank : Template → Nat)
    (rec : Template → MacroCollection →
      Option (Except TeraError MacroCollection × List String))
    (hrec : ∀ t c r vis, Tera.get_template tera t.name = some t →
      rec t c = some (r, vis) →
      vis.Nodup ∧ (∀ v ∈ vis, containsA c.macros v = false) ∧
      (∀ v ∈ vis, ∃ t', Tera.get_template tera v = some t' ∧ rank t' ≤ rank t) ∧
      (∀ c', r = Except.ok c' →
        (∀ v ∈ vis, containsA c'.macros v = true) ∧
        (∀ k, containsA c.macros k = true → containsA c'.macros k = true)))
    (R : Nat) :
    ∀ imports mnm coll r vis,
      (∀ fa, fa ∈ imports → ∀ t', Tera.get_template tera fa.1 = some t' →
        rank t' < R) →
      visit_imports_log tera rec imports mnm coll = some (r, vis) →
      vis.Nodup ∧ (∀ v ∈ vis, containsA coll.macros v = false) ∧
      (∀ v ∈ vis, ∃ t', Tera.get_template tera v = some t' ∧ rank t' < R) ∧
      (∀ mnm' c', r = Except.ok (mnm', c') →
        (∀ v ∈ vis, containsA c'.macros v = true) ∧
        (∀ k, containsA coll.macros k = true → containsA c'.macros k = true)) := by
  intro imports
  induction imports with
  | nil =>
    intro mnm coll r vis _ h
    simp only [visit_imports_log, Option.some.injEq, Prod.mk.injEq] at h
    obtain ⟨hr, hv⟩ := h
    subst hv
    refine ⟨List.nodup_nil, by simp, by simp, ?_⟩
    intro mnm' c' heq
    rw [← hr] at heq
    injection heq with heq2
    injection heq2 with h1 h2
    exact ⟨by simp, fun k hk => by rw [← h2]; exact hk⟩
  | cons fa rest ih =>
    intro mnm coll r vis helem h
    obtain ⟨filename, ns⟩ := fa
    cases hg : Tera.get_template tera filename with
    | none =>
      simp only [visit_imports_log, hg, Option.some.injEq, Prod.mk.injEq] at h
      obtain ⟨hr, hv⟩ := h
      subst hv
      refine ⟨List.nodup_nil, by simp, by simp, ?_⟩
      intro mnm' c' heq
      rw [← hr] at heq
      exact Except.noConfusion heq
    | some mt =>
      have hmtcan : Tera.get_template tera mt.name = some mt :=
        get_template_canonical tera filename mt hg
      have hmtrank : rank mt < R := by
        refine helem (filename, ns) (List.mem_cons_self _ _) mt ?_
        exact hg
      cases hr0 : rec mt coll with
      | none =>
        simp only [visit_imports_log, hg, hr0] at h
        exact Option.noConfusion h
      | some rv =>
        obtain ⟨r0, vis0⟩ := rv
        have A := hrec mt coll r0 vis0 hmtcan hr0
        cases r0 with
        | error e =>
          simp only [visit_imports_log, hg, hr0, Option.some.injEq, Prod.mk.injEq] at h
          obtain ⟨hr, hv⟩ := h
          subst hv
          refine ⟨A.1, A.2.1, ?_, ?_⟩
          · intro v hv0
            obtain ⟨t', hgt, hle⟩ := A.2.2.1 v hv0
            exact ⟨t', hgt, lt_of_le_of_lt hle hmtrank⟩
          · intro mnm' c' heq
            rw [← hr] at heq
            exact Except.noConfusion heq
        | ok c2 =>
          have Aok := A.2.2.2 c2 rfl
          cases hi : visit_imports_log tera rec rest
              (insertA mnm ns (filename, mt.macros)) c2 with
          | none =>
            simp only [visit_imports_log, hg, hr0, hi] at h
            exact Option.noConfusion h
          | some rv2 =>
            obtain ⟨r2, vis2⟩ := rv2
            simp only [visit_imports_log, hg, hr0, hi, Option.some.injEq,
              Prod.mk.injEq] at h
            obtain ⟨hr, hv⟩ := h
            subst hv
            have B := ih _ c2 r2 vis2
              (fun fa2 hfa2 t' hg2 => helem fa2 (List.mem_cons_of_mem _ hfa2) t' hg2) hi
            refine ⟨?_, ?_, ?_, ?_⟩
            · refine List.Nodup.append A.1 B.1 ?_
              intro a ha hav2
              have h1 : containsA c2.macros a = true := Aok.1 a ha
              have h2 : containsA c2.macros a = false := B.2.1 a hav2
              rw [h1] at h2
              cases h2
            · intro v hv0
              rcases List.mem_append.mp hv0 with hin | hin
              · exact A.2.1 v hin
              · apply bool_false_of_not_true
                intro htrue
                have h1 : containsA c2.macros v = true := Aok.2 v htrue
                have h2 : containsA c2.macros v = false := B.2.1 v hin
                rw [h1] at h2
                cases h2
            · intro v hv0
              rcases List.mem_append.mp hv0 with hin | hin
              · obtain ⟨t', hgt, hle⟩ := A.2.2.1 v hin
                exact ⟨t', hgt, lt_of_le_of_lt hle hmtrank⟩
              · exact B.2.2.1 v hin
            · intro mnm' c' heq
              rw [← hr] at heq
              have Bok := B.2.2.2 mnm' c' heq
              constructor
              · intro v hv0
                rcases List.mem_append.mp hv0 with hin | hin
                · exact Bok.2 v (Aok.1 v hin)
                · exact Bok.1 v hin
              · intro k hk
                exact Bok.2 k (Aok.2 k hk)

theorem visit_parents_log_nodup (tera : Tera) (rank : Template → Nat)
    (rec : Template → MacroCollection →
      Option (Except TeraError MacroCollection × List String))
    (hrec : ∀ t c r vis, Tera.get_template tera t.name = some t →
      rec t c = some (r, vis) →
      vis.Nodup ∧ (∀ v ∈ vis, containsA c.macros v = false) ∧
      (∀ v ∈ vis, ∃ t', Tera.get_template tera v = some t' ∧ rank t' ≤ rank t) ∧
      (∀ c', r = Except.ok c' →
        (∀ v ∈ vis, containsA c'.macros v = true) ∧
        (∀ k, containsA c.macros k = true → containsA c'.macros k = true)))
    (R : Nat) :
    ∀ parents coll r vis,
      (∀ p, p ∈ parents → ∀ t', Tera.get_template tera p = some t' →
        rank t' < R) →
      visit_parents_log tera rec parents coll = some (r, vis) →
      vis.Nodup ∧ (∀ v ∈ vis, containsA coll.macros v = false) ∧
      (∀ v ∈ vis, ∃ t', Tera.get_template tera v = some t' ∧ rank t' < R) ∧
      (∀ c', r = Except.ok c' →
        (∀ v ∈ vis, containsA c'.macros v = true) ∧
        (∀ k, containsA coll.macros k = true → containsA c'.macros k = true)) := by
  intro parents
  induction parents with
  | nil =>
    intro coll r vis _ h
    simp only [visit_parents_log, Option.some.injEq, Prod.mk.injEq] at h
    obtain ⟨hr, hv⟩ := h
    subst hv
    refine ⟨List.nodup_nil, by simp, by simp, ?_⟩
    intro c' heq
    rw [← hr] at heq
    injection heq with h1
    exact ⟨by simp, fun k hk => by rw [← h1]; exact hk⟩
  | cons p rest ih =>
    intro coll r vis helem h
    cases hg : Tera.get_template tera p with
    | none =>
      simp only [visit_parents_log, hg, Option.some.injEq, Prod.mk.injEq] at h
      obtain ⟨hr, hv⟩ := h
      subst hv
      refine ⟨List.nodup_nil, by simp, by simp, ?_⟩
      intro c' heq
      rw [← hr] at heq
      exact Except.noConfusion heq
    | some pt =>
      have hptcan : Tera.get_template tera pt.name = some pt :=
        get_template_canonical tera p pt hg
      have hptrank : rank pt < R := helem p (List.mem_cons_self _ _) pt hg
      cases hr0 : rec pt coll with
      | none =>
        simp only [visit_parents_log, hg, hr0] at h
        exact Option.noConfusion h
      | some rv =>
        obtain ⟨r0, vis0⟩ := rv
        have A := hrec pt coll r0 vis0 hptcan hr0
        cases r0 with
        | error e =>
          simp only [visit_parents_log, hg, hr0, Option.some.injEq, Prod.mk.injEq] at h
          obtain ⟨hr, hv⟩ := h
          subst hv
          refine ⟨A.1, A.2.1, ?_, ?_⟩
          · intro v hv0
            obtain ⟨t', hgt, hle⟩ := A.2.2.1 v hv0
            exact ⟨t', hgt, lt_of_le_of_lt hle hptrank⟩
          · intro c' heq
            rw [← hr] at heq
            exact Except.noConfusion heq
        | ok c2 =>
          have Aok := A.2.2.2 c2 rfl
          cases hi : visit_parents_log tera rec rest c2 with
          | none =>
            simp only [visit_parents_log, hg, hr0, hi] at h
            exact Option.noConfusion h
          | some rv2 =>
            obtain ⟨r2, vis2⟩ := rv2
            simp only [visit_parents_log, hg, hr0, hi, Option.some.injEq,
              Prod.mk.injEq] at h
            obtain ⟨hr, hv⟩ := h
            subst hv
            have B := ih c2 r2 vis2
              (fun p2 hp2 t' hg2 => helem p2 (List.mem_cons_of_mem _ hp2) t' hg2) hi
            refine ⟨?_, ?_, ?_, ?_⟩
            · refine List.Nodup.append A.1 B.1 ?_
              intro a ha hav2
              have h1 : containsA c2.macros a = true := Aok.1 a ha
              have h2 : containsA c2.macros a = false := B.2.1 a hav2
              rw [h1] at h2
              cases h2
            · intro v hv0
              rcases List.mem_append.mp hv0 with hin | hin
              · exact A.2.1 v hin
              · apply bool_false_of_not_true
                intro htrue
                have h1 : containsA c2.macros v = true := Aok.2 v htrue
                have h2 : containsA c2.macros v = false := B.2.1 v hin
                rw [h1] at h2
                cases h2
            · intro v hv0
              rcases List.mem_append.mp hv0 with hin | hin
              · obtain ⟨t', hgt, hle⟩ := A.2.2.1 v hin
                exact ⟨t', hgt, lt_of_le_of_lt hle hptrank⟩
              · exact B.2.2.1 v hin
            · intro c' heq
              rw [← hr] at heq
              have Bok := B.2.2.2 c' heq
              constructor
              · intro v hv0
                rcases List.mem_append.mp hv0 with hin | hin
                · exact Bok.2 v (Aok.1 v hin)
                · exact Bok.1 v hin
              · intro k hk
                exact Bok.2 k (Aok.2 k hk)

theorem add_macros_log_nodup (tera : Tera) (rank : Template → Nat)
    (hrank : ∀ t t', tpl_succ tera t t' → rank t' < rank t) :
    ∀ fuel template coll r vis,
      Tera.get_template tera template.name = some template →
      add_macros_log tera fuel template coll = some (r, vis) →
      vis.Nodup ∧ (∀ v ∈ vis, containsA coll.macros v = false) ∧
      (∀ v ∈ vis, ∃ t', Tera.get_template tera v = some t' ∧
        rank t' ≤ rank template) ∧
      (∀ c', r = Except.ok c' →
        (∀ v ∈ vis, containsA c'.macros v = true) ∧
        (∀ k, containsA coll.macros k = true → containsA c'.macros k = true)) := by
  intro fuel
  induction fuel with
  | zero =>
    intro template coll r vis _ h
    exact Option.noConfusion h
  | succ fuel ih =>
    intro template coll r vis htpl h
    simp only [add_macros_log] at h
    unfold visit_template_log at h
    split at h
    · rename_i hc
      simp only [Option.some.injEq, Prod.mk.injEq] at h
      obtain ⟨hr, hv⟩ := h
      subst hv
      refine ⟨List.nodup_nil, by simp, by simp, ?_⟩
      intro c' heq
      rw [← hr] at heq
      injection heq with h1
      exact ⟨by simp, fun k hk => by rw [← h1]; exact hk⟩
    · rename_i hc
      have hcf : containsA coll.macros template.name = false :=
        bool_false_of_not_true _ hc
      have helemI : ∀ fa, fa ∈ template.imported_macro_files → ∀ t',
          Tera.get_template tera fa.1 = some t' → rank t' < rank template :=
        fun fa hfa t' hg => hrank template t' (Or.inl ⟨fa, hfa, hg⟩)
      have helemP : ∀ p, p ∈ template.parents → ∀ t',
          Tera.get_template tera p = some t' → rank t' < rank template :=
        fun p hp t' hg => hrank template t' (Or.inr ⟨p, hp, hg⟩)
      split at h
      · exact Option.noConfusion h
      · rename_i e vis0 hi
        simp only [Option.some.injEq, Prod.mk.injEq] at h
        obtain ⟨hr, hv⟩ := h
        subst hv
        have L := visit_imports_log_nodup tera rank _
          (fun t c r2 vis2 hcan hcall => ih t c r2 vis2 hcan hcall)
          (rank template) template.imported_macro_files _ coll _ vis0 helemI hi
        refine ⟨?_, ?_, ?_, ?_⟩
        · rw [List.nodup_cons]
          refine ⟨?_, L.1⟩
          intro hmem
          obtain ⟨t', hgt, hlt⟩ := L.2.2.1 _ hmem
          rw [htpl] at hgt
          injection hgt with ht'
          rw [← ht'] at hlt
          exact absurd hlt (lt_irrefl _)
        · intro v hvm
          rcases List.mem_cons.mp hvm with hvh | hvt
          · rw [hvh]; exact hcf
          · exact L.2.1 v hvt
        · intro v hvm
          rcases List.mem_cons.mp hvm with hvh | hvt
          · exact ⟨template, by rw [hvh]; exact htpl, le_refl _⟩
          · obtain ⟨t', hgt, hlt⟩ := L.2.2.1 v hvt
            exact ⟨t', hgt, le_of_lt hlt⟩
        · intro c' heq
          rw [← hr] at heq
          exact Except.noConfusion heq
      · rename_i mnm c2 vis0 hi
        split at h
        · exact Option.noConfusion h
        · rename_i r2 vis2 hp
          simp only [Option.some.injEq, Prod.mk.injEq] at h
          obtain ⟨hr, hv⟩ := h
          subst hv
          have L := visit_imports_log_nodup tera rank _
            (fun t c r3 vis3 hcan hcall => ih t c r3 vis3 hcan hcall)
            (rank template) template.imported_macro_files _ coll _ vis0 helemI hi
          have Lok := L.2.2.2 mnm c2 rfl
          have M := visit_parents_log_nodup tera rank _
            (fun t c r3 vis3 hcan hcall => ih t c r3 vis3 hcan hcall)
            (rank template) template.parents
            ⟨insertA c2.macros template.name mnm⟩ r2 vis2 helemP hp
          have hnameI : containsA (insertA c2.macros template.name mnm)
              template.name = true :=
            (containsA_insertA _ _ _ _).mpr (Or.inl rfl)
          refine ⟨?_, ?_, ?_, ?_⟩
          · rw [List.nodup_cons]
            constructor
            · intro hmem
              rcases List.mem_append.mp hmem with hin | hin
              · obtain ⟨t', hgt, hlt⟩ := L.2.2.1 _ hin
                rw [htpl] at hgt
                injection hgt with ht'
                rw [← ht'] at hlt
                exact absurd hlt (lt_irrefl _)
              · have hfalse : containsA (insertA c2.macros template.name mnm)
                    template.name = false := M.2.1 _ hin
                rw [hnameI] at hfalse
                cases hfalse
            · refine List.Nodup.append L.1 M.1 ?_
              intro a ha hav2
              have h1 : containsA c2.macros a = true := Lok.1 a ha
              have h2 : containsA (insertA c2.macros template.name mnm) a = true :=
                (containsA_insertA _ _ _ _).mpr (Or.inr h1)
              have h3 : containsA (insertA c2.macros template.name mnm) a = false :=
                M.2.1 a hav2
              rw [h2] at h3
              cases h3
          · intro v hvm
            rcases List.mem_cons.mp hvm with hvh | hvt
            · rw [hvh]; exact hcf
            · rcases List.mem_append.mp hvt with hin | hin
              · exact L.2.1 v hin
              · apply bool_false_of_not_true
                intro htrue
                have h1 : containsA c2.macros v = true := Lok.2 v htrue
                have h2 : containsA (insertA c2.macros template.name mnm) v = true :=
                  (containsA_insertA _ _ _ _).mpr (Or.inr h1)
                have h3 : containsA (insertA c2.macros template.name mnm) v = false :=
                  M.2.1 v hin
                rw [h2] at h3
                cases h3
          · intro v hvm
            rcases List.mem_cons.mp hvm with hvh | hvt
            · exact ⟨template, by rw [hvh]; exact htpl, le_refl _⟩
            · rcases List.mem_append.mp hvt with hin | hin
              · obtain ⟨t', hgt, hlt⟩ := L.2.2.1 v hin
                exact ⟨t', hgt, le_of_lt hlt⟩
              · obtain ⟨t', hgt, hlt⟩ := M.2.2.1 v hin
                exact ⟨t', hgt, le_of_lt hlt⟩
          · intro c' heq
            rw [← hr] at heq
            have Mok := M.2.2.2 c' heq
            constructor
            · intro v hvm
              rcases List.mem_cons.mp hvm with hvh | hvt
              · refine Mok.2 v ?_
                rw [hvh]
                exact hnameI
              · rcases List.mem_append.mp hvt with hin | hin
                · refine Mok.2 v ?_
                  exact (containsA_insertA _ _ _ _).mpr (Or.inr (Lok.1 v hin))
                · exact Mok.1 v hin
            · intro k hk
              refine Mok.2 k ?_
              exact (containsA_insertA _ _ _ _).mpr (Or.inr (Lok.2 k hk))

/-! ### Concrete fixtures -/

/-- A macro-library file with two macros. -/
def tpl_file : Template := ⟨"macros.html", [("hello", ⟨0⟩), ("bye", ⟨1⟩)], [], []⟩

/-- A root template with one own macro, importing `tpl_file` under alias
`"f"`. -/
def tpl_main : Template := ⟨"main.html", [("own", ⟨2⟩)], [("macros.html", "f")], []⟩

def teraMain : Tera := ⟨[tpl_file, tpl_main]⟩

/-- A parent template importing `tpl_file` under alias `"f"`. -/
def tpl_parent : Template := ⟨"parent.html", [("pm", ⟨3⟩)], [("macros.html", "f")], []⟩

/-- A child with one own macro, no imports, inheriting from `tpl_parent`. -/
def tpl_child : Template := ⟨"child.html", [("cm", ⟨4⟩)], [], ["parent.html"]⟩

def teraInherit : Tera := ⟨[tpl_file, tpl_parent, tpl_child]⟩

def tpl_left : Template := ⟨"left.html", [], [("macros.html", "m1")], []⟩

def tpl_right : Template := ⟨"right.html", [], [("macros.html", "m2")], []⟩

/-- Diamond: both sides import the same shared file. -/
def tpl_top : Template :=
  ⟨"top.html", [], [("left.html", "l"), ("right.html", "r")], []⟩

def teraDiamond : Tera := ⟨[tpl_file, tpl_left, tpl_right, tpl_top]⟩

def tpl_other : Template := ⟨"other.html", [("x", ⟨9⟩)], [], []⟩

/-- Declares alias `"f"` twice: first for `tpl_file`, then for `tpl_other`. -/
def tpl_dup : Template :=
  ⟨"dup.html", [], [("macros.html", "f"), ("other.html", "f")], []⟩

def teraDup : Tera := ⟨[tpl_file, tpl_other, tpl_dup]⟩

/-- A leaf template with no imports and no parents. -/
def tpl_leaf : Template := ⟨"leaf.html", [("l", ⟨7⟩)], [], []⟩

def teraLeaf : Tera := ⟨[tpl_leaf]⟩

/-- Rank function witnessing acyclicity of `teraLeaf`. -/
def rankLeaf : Template → Nat := fun t => if t = tpl_leaf then 0 else 1

/-- A root importing a file absent from the registry. -/
def tpl_bad : Template := ⟨"bad.html", [], [("missing.html", "z")], []⟩

def teraBad : Tera := ⟨[tpl_bad]⟩

def collMain : MacroCollection :=
  ⟨[("main.html", [("f", ("macros.html", tpl_file.macros)),
                   ("self", ("main.html", tpl_main.macros))]),
    ("macros.html", [("self", ("macros.html", tpl_file.macros))])]⟩

def mnm_main : MacroNamespaceMap :=
  [("f", ("macros.html", tpl_file.macros)),
   ("self", ("main.html", tpl_main.macros))]

def collFile : MacroCollection :=
  ⟨[("macros.html", [("self", ("macros.html", tpl_file.macros))])]⟩

def collInherit : MacroCollection :=
  ⟨[("parent.html", [("f", ("macros.html", tpl_file.macros)),
                     ("self", ("parent.html", tpl_parent.macros))]),
    ("macros.html", [("self", ("macros.html", tpl_file.macros))]),
    ("child.html", [("self", ("child.html", tpl_child.macros))])]⟩

def collLeft : MacroCollection :=
  ⟨[("left.html", [("m1", ("macros.html", tpl_file.macros))]),
    ("macros.html", [("self", ("macros.html", tpl_file.macros))])]⟩

def collDup : MacroCollection :=
  ⟨[("dup.html", [("f", ("other.html", tpl_other.macros))]),
    ("other.html", [("self", ("other.html", tpl_other.macros))]),
    ("macros.html", [("self", ("macros.html", tpl_file.macros))])]⟩

/-! ### The claims -/

/-- C1.  Completeness of construction: when the build from a root template
(registered under its own name) succeeds, then every template name
transitively reachable from the root via macro-imports or parent inheritance
has a top-level entry whose namespace map is exactly the one computed for
the registry template of that name: the `"self"` entry precisely when the
template has own macros (provided no alias shadows `"self"`), plus one entry
per macro-import alias pointing at the imported template's macro map
(provided the alias list has no duplicates). -/
theorem C1_collection_completeness (tera : Tera) (root : Template)
    (fuel : Nat) (coll' : MacroCollection)
    (hroot : Tera.get_template tera root.name = some root)
    (hrun : add_macros_from_template tera fuel root ⟨[]⟩ = some (Except.ok coll'))
    (k : String) (hreach : reach_name tera root.name k) :
    ∃ t mnm, Tera.get_template tera k = some t ∧
      lookupA coll'.macros k = some mnm ∧
      built_namespace_map tera t = some mnm ∧
      ("self" ∉ t.imported_macro_files.map Prod.snd →
        lookupA mnm "self" =
          (if t.macros.isEmpty then none else some (t.name, t.macros))) ∧
      ((t.imported_macro_files.map Prod.snd).Nodup →
        ∀ f a, (f, a) ∈ t.imported_macro_files →
          ∃ mt, Tera.get_template tera f = some mt ∧
            lookupA mnm a = some (f, mt.macros)) := by
  have hclosed0 : ClosedExcept tera ⟨[]⟩ (fun _ _ => False) := by
    intro k1 k2 hk1 _
    simp [containsA] at hk1
  have hsh0 : Shaped tera ⟨[]⟩ := by
    intro k1 mnm1 h
    simp [lookupA] at h
  have hclosed := add_closed tera fuel _ root _ coll' hroot hclosed0 hrun
  have hsh := add_shaped tera fuel root _ coll' hroot hsh0 hrun
  have hrootmem : containsA coll'.macros root.name = true :=
    add_mem tera fuel root _ coll' hrun
  have hkmem : containsA coll'.macros k = true :=
    closed_reach tera coll' hclosed root.name k hreach hrootmem
  obtain ⟨mnm, hmnm⟩ := (containsA_iff_lookupA _ _).mp hkmem
  obtain ⟨t, hgt, hbuilt⟩ := hsh k mnm hmnm
  have hb : built_namespace_loop tera t.imported_macro_files
      (self_namespace_map t) = some mnm := hbuilt
  refine ⟨t, mnm, hgt, hmnm, hbuilt, ?_, ?_⟩
  · intro hs
    exact built_map_self tera t mnm hs hbuilt
  · intro hnd f a hfa
    have hli : last_import t.imported_macro_files a = some f :=
      last_import_of_nodup _ f a hnd hfa
    exact built_loop_last_some tera _ _ mnm a f hli hb

theorem C1_witness :
    Tera.get_template teraMain tpl_main.name = some tpl_main ∧
    add_macros_from_template teraMain 5 tpl_main ⟨[]⟩ =
      some (Except.ok collMain) ∧
    reach_name teraMain tpl_main.name "macros.html" ∧
    (∃ t mnm, Tera.get_template teraMain "macros.html" = some t ∧
      lookupA collMain.macros "macros.html" = some mnm ∧
      built_namespace_map teraMain t = some mnm ∧
      ("self" ∉ t.imported_macro_files.map Prod.snd →
        lookupA mnm "self" =
          (if t.macros.isEmpty then none else some (t.name, t.macros))) ∧
      ((t.imported_macro_files.map Prod.snd).Nodup →
        ∀ f a, (f, a) ∈ t.imported_macro_files →
          ∃ mt, Tera.get_template teraMain f = some mt ∧
            lookupA mnm a = some (f, mt.macros))) := by
  have hreach : reach_name teraMain tpl_main.name "macros.html" :=
    reach_name.step ⟨tpl_main, rfl, Or.inl (by decide)⟩ (reach_name.refl _)
  exact ⟨rfl, rfl, hreach,
    C1_collection_completeness teraMain tpl_main 5 collMain rfl rfl
      "macros.html" hreach⟩

/-- C2.  Lookup success postcondition: in a successfully built collection,
if `template_name` has an entry binding `macro_namespace` to an origin and a
macro map containing `macro_name`, then `lookup_macro` returns `Ok` of that
origin and the stored definition, and the stored macro map is exactly the
origin template's own macro map. -/
theorem C2_lookup_success (tera : Tera) (root : Template) (fuel : Nat)
    (coll' : MacroCollection)
    (hroot : Tera.get_template tera root.name = some root)
    (hrun : add_macros_from_template tera fuel root ⟨[]⟩ = some (Except.ok coll'))
    (template_name macro_namespace macro_name : String)
    (mnm : MacroNamespaceMap) (o : String) (m : MacroDefinitionMap)
    (d : MacroDefinition)
    (h1 : lookupA coll'.macros template_name = some mnm)
    (h2 : lookupA mnm macro_namespace = some (o, m))
    (h3 : lookupA m macro_name = some d) :
    lookupMacro coll' template_name macro_namespace macro_name =
      Except.ok (o, d) ∧
    ∃ ot, Tera.get_template tera o = some ot ∧ m = ot.macros := by
  constructor
  · exact lookupMacro_ok coll' _ _ _ mnm o m d h1 h2 h3
  · have hsh0 : Shaped tera ⟨[]⟩ := by
      intro k1 mnm1 h
      simp [lookupA] at h
    have hsh := add_shaped tera fuel root _ coll' hroot hsh0 hrun
    obtain ⟨t, hgt, hbuilt⟩ := hsh _ mnm h1
    have hcan : Tera.get_template tera t.name = some t :=
      get_template_canonical tera _ t hgt
    exact built_map_values tera t mnm hcan hbuilt macro_namespace o m h2

theorem C2_witness :
    Tera.get_template teraMain tpl_main.name = some tpl_main ∧
    add_macros_from_template teraMain 5 tpl_main ⟨[]⟩ =
      some (Except.ok collMain) ∧
    lookupA collMain.macros "main.html" = some mnm_main ∧
    lookupA mnm_main "f" = some ("macros.html", tpl_file.macros) ∧
    lookupA tpl_file.macros "hello" = some ⟨0⟩ ∧
    (lookupMacro collMain "main.html" "f" "hello" =
      Except.ok ("macros.html", ⟨0⟩) ∧
     ∃ ot, Tera.get_template teraMain "macros.html" = some ot ∧
       tpl_file.macros = ot.macros) :=
  ⟨rfl, rfl, rfl, rfl, rfl,
   C2_lookup_success teraMain tpl_main 5 collMain rfl rfl
     "main.html" "f" "hello" mnm_main "macros.html" tpl_file.macros ⟨0⟩
     rfl rfl rfl⟩

/-- C3.  Lookup failure cases: `lookup_macro` answers a "namespace not
found" error naming the namespace and the template exactly when the
template-then-namespace resolution fails (uniformly covering a missing
template entry and a missing namespace), a "macro not found" error naming
macro, namespace and template exactly when the namespace resolves but its
macro map lacks the macro, and these are its only failure cases. -/
theorem C3_lookup_failures (coll : MacroCollection)
    (template_name macro_namespace macro_name : String) :
    ((lookupA coll.macros template_name).bind
        (fun nm => lookupA nm macro_namespace) = none →
      lookupMacro coll template_name macro_namespace macro_name =
        Except.error (TeraError.namespaceNotFound macro_namespace template_name)) ∧
    (∀ nsv, (lookupA coll.macros template_name).bind
        (fun nm => lookupA nm macro_namespace) = some nsv →
      lookupA nsv.2 macro_name = none →
      lookupMacro coll template_name macro_namespace macro_name =
        Except.error
          (TeraError.macroNotFound macro_namespace macro_name template_name)) ∧
    (∀ e, lookupMacro coll template_name macro_namespace macro_name =
        Except.error e →
      (e = TeraError.namespaceNotFound macro_namespace template_name ∧
        (lookupA coll.macros template_name).bind
          (fun nm => lookupA nm macro_namespace) = none) ∨
      (e = TeraError.macroNotFound macro_namespace macro_name template_name ∧
        ∃ nsv, (lookupA coll.macros template_name).bind
            (fun nm => lookupA nm macro_namespace) = some nsv ∧
          lookupA nsv.2 macro_name = none)) := by
  refine ⟨?_, ?_, ?_⟩
  · intro h
    exact lookupMacro_ns_error coll _ _ _ h
  · intro nsv h h2
    exact lookupMacro_mac_error coll _ _ _ nsv h h2
  · intro e he
    unfold lookupMacro at he
    split at he
    · rename_i nsv hb
      split at he
      · exact Except.noConfusion he
      · rename_i hm
        right
        injection he with h1
        exact ⟨h1.symm, nsv, hb, hm⟩
    · rename_i hb
      left
      injection he with h1
      exact ⟨h1.symm, hb⟩

/-- C4 counterexample: with a root whose import is absent from the registry,
the recursive builder does produce an error value, but the public
construction entry point `from_original_template` returns no error value at
all — the source unwraps with `.expect(...)`, i.e. panics (modelled by
`none`), so the failure is not "returned as an error value from the
construction entry point". -/
theorem C4_counterexample :
    add_macros_from_template teraBad 2 tpl_bad ⟨[]⟩ =
      some (Except.error (TeraError.templateNotFound "missing.html")) ∧
    from_original_template tpl_bad teraBad 2 = none := ⟨rfl, rfl⟩

/-- C4 (amended).  Errors are propagated as values through the recursive
builder: `from_original_template` yields a collection exactly when the
builder returns `Ok`, and whenever a registry lookup failure aborts the
build with an error value, the entry point yields `none` (the panic of its
`.expect`), not an error value. -/
theorem C4_error_propagation (tpl : Template) (tera : Tera) (fuel : Nat) :
    (∀ c, from_original_template tpl tera fuel = some c ↔
      add_macros_from_template tera fuel tpl ⟨[]⟩ = some (Except.ok c)) ∧
    (∀ e, add_macros_from_template tera fuel tpl ⟨[]⟩ =
        some (Except.error e) →
      from_original_template tpl tera fuel = none) := by
  constructor
  · intro c
    constructor
    · intro h
      unfold from_original_template at h
      split at h
      · rename_i coll heq
        injection h with h1
        rw [← h1]
        exact heq
      · exact Option.noConfusion h
    · intro h
      unfold from_original_template
      rw [h]
  · intro e h
    unfold from_original_template
    rw [h]

/-- C5.  Re-visit idempotence: calling the builder on a template whose name
already has a top-level entry returns `Ok` immediately with the collection
unchanged (in particular, on a diamond-shaped graph the shared template's
second reachability path neither alters nor duplicates its namespace map). -/
theorem C5_revisit_noop (tera : Tera) (template : Template)
    (coll : MacroCollection) (fuel : Nat)
    (hmem : containsA coll.macros template.name = true) :
    add_macros_from_template tera (fuel + 1) template coll =
      some (Except.ok coll) := by
  simp only [add_macros_from_template]
  unfold visit_template
  rw [if_pos hmem]

theorem C5_witness :
    containsA collLeft.macros tpl_file.name = true ∧
    add_macros_from_template teraDiamond 3 tpl_file collLeft =
      some (Except.ok collLeft) :=
  ⟨rfl, C5_revisit_noop teraDiamond tpl_file collLeft 2 rfl⟩

/-- C6.  Leaf-template shape: for a template with no macro imports and no
parents, building from the empty collection produces exactly one top-level
entry — the template's name mapped to its self namespace map, which is
`{"self" ↦ (name, own macros)}` when it has own macros and empty when it has
none. -/
theorem C6_leaf_shape (tera : Tera) (t : Template) (fuel : Nat)
    (himp : t.imported_macro_files = []) (hpar : t.parents = []) :
    add_macros_from_template tera (fuel + 1) t ⟨[]⟩ =
      some (Except.ok ⟨[(t.name, self_namespace_map t)]⟩) ∧
    (t.macros.isEmpty = false →
      self_namespace_map t = [("self", (t.name, t.macros))]) ∧
    (t.macros.isEmpty = true → self_namespace_map t = []) := by
  refine ⟨?_, ?_, ?_⟩
  · simp only [add_macros_from_template]
    unfold visit_template
    rw [himp, hpar, if_neg (by simp [containsA])]
    simp [visit_imports, visit_parents, insertA, self_namespace_map]
  · intro h
    simp [self_namespace_map, h, insertA]
  · intro h
    simp [self_namespace_map, h]

theorem C6_witness :
    tpl_leaf.imported_macro_files = [] ∧ tpl_leaf.parents = [] ∧
    (add_macros_from_template teraLeaf 1 tpl_leaf ⟨[]⟩ =
      some (Except.ok ⟨[(tpl_leaf.name, self_namespace_map tpl_leaf)]⟩) ∧
    (tpl_leaf.macros.isEmpty = false →
      self_namespace_map tpl_leaf = [("self", (tpl_leaf.name, tpl_leaf.macros))]) ∧
    (tpl_leaf.macros.isEmpty = true → self_namespace_map tpl_leaf = [])) :=
  ⟨rfl, rfl, C6_leaf_shape teraLeaf tpl_leaf 0 rfl rfl⟩

/-- C7.  No partially populated entry: every builder call preserves, with
their exact values, all entries present before it (once inserted, a
namespace map is never modified by a later step), and preserves the
invariant that every present entry is the fully built namespace map of the
registry template of that name (the `"self"` entry iff the template has own
macros, plus one entry per declared import alias — the content of
`built_namespace_map`). -/
theorem C7_no_partial_entries (tera : Tera) (template : Template)
    (coll coll' : MacroCollection) (fuel : Nat)
    (htpl : Tera.get_template tera template.name = some template)
    (hrun : add_macros_from_template tera fuel template coll =
      some (Except.ok coll')) :
    (∀ k v, lookupA coll.macros k = some v → lookupA coll'.macros k = some v) ∧
    (Shaped tera coll → Shaped tera coll') :=
  ⟨add_pres tera fuel template coll coll' hrun,
   fun hsh => add_shaped tera fuel template coll coll' htpl hsh hrun⟩

theorem C7_witness :
    Tera.get_template teraMain tpl_main.name = some tpl_main ∧
    add_macros_from_template teraMain 5 tpl_main collFile =
      some (Except.ok collMain) ∧
    ((∀ k v, lookupA collFile.macros k = some v →
        lookupA collMain.macros k = some v) ∧
     (Shaped teraMain collFile → Shaped teraMain collMain)) :=
  ⟨rfl, rfl, C7_no_partial_entries teraMain tpl_main collFile collMain 5 rfl rfl⟩

/-- C8.  Inheritance does not merge namespaces: for a child with no macro
imports whose parent chain names a registered parent, a successful build
from the child still gives the parent its own top-level entry (with one
entry per parent import alias), while the child's own namespace map is
exactly its self namespace map — nothing of the parent is merged in. -/
theorem C8_inheritance_no_merge (tera : Tera) (child parent : Template)
    (fuel : Nat) (coll' : MacroCollection) (pname : String)
    (hchild : Tera.get_template tera child.name = some child)
    (himports : child.imported_macro_files = [])
    (hpar : pname ∈ child.parents)
    (hget : Tera.get_template tera pname = some parent)
    (hrun : add_macros_from_template tera fuel child ⟨[]⟩ =
      some (Except.ok coll')) :
    lookupA coll'.macros child.name = some (self_namespace_map child) ∧
    ∃ mnmp, lookupA coll'.macros parent.name = some mnmp ∧
      built_namespace_map tera parent = some mnmp ∧
      ((parent.imported_macro_files.map Prod.snd).Nodup →
        ∀ f a, (f, a) ∈ parent.imported_macro_files →
          ∃ mt, Tera.get_template tera f = some mt ∧
            lookupA mnmp a = some (f, mt.macros)) := by
  have hsh0 : Shaped tera ⟨[]⟩ := by
    intro k1 mnm1 h
    simp [lookupA] at h
  have hclosed0 : ClosedExcept tera ⟨[]⟩ (fun _ _ => False) := by
    intro k1 k2 hk1 _
    simp [containsA] at hk1
  have hsh := add_shaped tera fuel child _ coll' hchild hsh0 hrun
  have hclosed := add_closed tera fuel _ child _ coll' hchild hclosed0 hrun
  have hchildmem := add_mem tera fuel child _ coll' hrun
  obtain ⟨mnmc, hmnmc⟩ := (containsA_iff_lookupA _ _).mp hchildmem
  obtain ⟨tc, hgtc, hbc⟩ := hsh _ mnmc hmnmc
  have htceq : tc = child := by
    rw [hchild] at hgtc
    injection hgtc with h1
    exact h1.symm
  subst htceq
  have hmnmcval : mnmc = self_namespace_map tc := by
    have hb1 : built_namespace_map tera tc = some (self_namespace_map tc) := by
      unfold built_namespace_map
      rw [himports]
      rfl
    rw [hb1] at hbc
    injection hbc with h1
    exact h1.symm
  have hpname : parent.name = pname := get_template_name tera pname parent hget
  have hreach : reach_name tera tc.name parent.name := by
    rw [hpname]
    exact reach_name.step ⟨tc, hchild, Or.inr hpar⟩ (reach_name.refl _)
  have hpmem : containsA coll'.macros parent.name = true :=
    closed_reach tera coll' hclosed tc.name parent.name hreach hchildmem
  obtain ⟨mnmp, hmnmp⟩ := (containsA_iff_lookupA _ _).mp hpmem
  obtain ⟨tp, hgtp, hbp⟩ := hsh _ mnmp hmnmp
  have htpeq : tp = parent := by
    rw [hpname, hget] at hgtp
    injection hgtp with h1
    exact h1.symm
  subst htpeq
  refine ⟨hmnmcval ▸ hmnmc, mnmp, hmnmp, hbp, ?_⟩
  intro hnd f a hfa
  have hb2 : built_namespace_loop tera tp.imported_macro_files
      (self_namespace_map tp) = some mnmp := hbp
  exact built_loop_last_some tera _ _ mnmp a f
    (last_import_of_nodup _ f a hnd hfa) hb2

theorem C8_witness :
    Tera.get_template teraInherit tpl_child.name = some tpl_child ∧
    tpl_child.imported_macro_files = [] ∧
    "parent.html" ∈ tpl_child.parents ∧
    Tera.get_template teraInherit "parent.html" = some tpl_parent ∧
    add_macros_from_template teraInherit 5 tpl_child ⟨[]⟩ =
      some (Except.ok collInherit) ∧
    (lookupA collInherit.macros tpl_child.name =
      some (self_namespace_map tpl_child) ∧
    ∃ mnmp, lookupA collInherit.macros tpl_parent.name = some mnmp ∧
      built_namespace_map teraInherit tpl_parent = some mnmp ∧
      ((tpl_parent.imported_macro_files.map Prod.snd).Nodup →
        ∀ f a, (f, a) ∈ tpl_parent.imported_macro_files →
          ∃ mt, Tera.get_template teraInherit f = some mt ∧
            lookupA mnmp a = some (f, mt.macros))) :=
  ⟨rfl, rfl, by decide, rfl, rfl,
   C8_inheritance_no_merge teraInherit tpl_child tpl_parent 5 collInherit
     "parent.html" rfl rfl (by decide) rfl rfl⟩

/-- C9.  Termination on acyclic graphs: when the import/inheritance edge
relation admits a strictly decreasing rank (i.e. the reachability graph is
acyclic), the builder terminates — any fuel above the root's rank returns a
value — and, for a root registered under its own name, the body past the
visited check runs at most once per distinct template name (the instrumented
builder's visit log has no duplicates). -/
theorem C9_terminates_visits_once (tera : Tera) (rank : Template → Nat)
    (hrank : ∀ t t', tpl_succ tera t t' → rank t' < rank t)
    (template : Template) (coll : MacroCollection) (fuel : Nat)
    (hfuel : rank template < fuel)
    (htpl : Tera.get_template tera template.name = some template) :
    (add_macros_from_template tera fuel template coll).isSome ∧
    (∀ r vis, add_macros_log tera fuel template coll = some (r, vis) →
      vis.Nodup) :=
  ⟨add_isSome_of_rank tera rank hrank fuel template coll hfuel,
   fun r vis h =>
     (add_macros_log_nodup tera rank hrank fuel template coll r vis htpl h).1⟩

theorem C9_witness :
    (∀ t t', tpl_succ teraLeaf t t' → rankLeaf t' < rankLeaf t) ∧
    rankLeaf tpl_leaf < 1 ∧
    Tera.get_template teraLeaf tpl_leaf.name = some tpl_leaf ∧
    ((add_macros_from_template teraLeaf 1 tpl_leaf ⟨[]⟩).isSome ∧
     (∀ r vis, add_macros_log teraLeaf 1 tpl_leaf ⟨[]⟩ = some (r, vis) →
       vis.Nodup)) := by
  have hget : ∀ s t', Tera.get_template teraLeaf s = some t' → t' = tpl_leaf := by
    intro s t' hg
    have hg' : List.find? (fun t => t.name == s) teraLeaf.templates = some t' := hg
    have hmem := List.mem_of_find?_eq_some hg'
    simp only [teraLeaf, List.mem_singleton] at hmem
    exact hmem
  have hrank : ∀ t t', tpl_succ teraLeaf t t' → rankLeaf t' < rankLeaf t := by
    intro t t' h
    have ht' : t' = tpl_leaf := by
      rcases h with ⟨fa, _, hg⟩ | ⟨p, _, hg⟩
      · exact hget _ _ hg
      · exact hget _ _ hg
    subst ht'
    by_cases hteq : t = tpl_leaf
    · exfalso
      subst hteq
      rcases h with ⟨fa, hfa, _⟩ | ⟨p, hp, _⟩
      · simp [tpl_leaf] at hfa
      · simp [tpl_leaf] at hp
    · simp [rankLeaf, hteq]
  exact ⟨hrank, by decide, rfl,
    C9_terminates_visits_once teraLeaf rankLeaf hrank tpl_leaf ⟨[]⟩ 1
      (by decide) rfl⟩

/-- C10.  Duplicate alias resolution: in a successfully built collection,
the entry of a collected template binds each alias to the (filename, macro
map) of the LAST declaration of that alias in declaration order, and every
imported file — shadowed ones included — still has its own top-level
entry. -/
theorem C10_duplicate_alias_last_wins (tera : Tera) (root : Template)
    (fuel : Nat) (coll' : MacroCollection) (k : String)
    (mnm : MacroNamespaceMap) (t : Template)
    (hroot : Tera.get_template tera root.name = some root)
    (hrun : add_macros_from_template tera fuel root ⟨[]⟩ =
      some (Except.ok coll'))
    (hk : lookupA coll'.macros k = some mnm)
    (hgt : Tera.get_template tera k = some t) :
    (∀ a f, last_import t.imported_macro_files a = some f →
      ∃ mt, Tera.get_template tera f = some mt ∧
        lookupA mnm a = some (f, mt.macros)) ∧
    (∀ fa, fa ∈ t.imported_macro_files →
      containsA coll'.macros fa.1 = true) := by
  have hsh0 : Shaped tera ⟨[]⟩ := by
    intro k1 mnm1 h
    simp [lookupA] at h
  have hclosed0 : ClosedExcept tera ⟨[]⟩ (fun _ _ => False) := by
    intro k1 k2 hk1 _
    simp [containsA] at hk1
  have hsh := add_shaped tera fuel root _ coll' hroot hsh0 hrun
  have hclosed := add_closed tera fuel _ root _ coll' hroot hclosed0 hrun
  obtain ⟨t0, hgt0, hb0⟩ := hsh k mnm hk
  have ht0 : t0 = t := by
    rw [hgt] at hgt0
    injection hgt0 with h1
    exact h1.symm
  subst ht0
  constructor
  · intro a f hla
    have hb2 : built_namespace_loop tera t0.imported_macro_files
        (self_namespace_map t0) = some mnm := hb0
    exact built_loop_last_some tera _ _ mnm a f hla hb2
  · intro fa hfa
    have hkmem : containsA coll'.macros k = true :=
      (containsA_iff_lookupA _ _).mpr ⟨mnm, hk⟩
    have hsucc : name_succ tera k fa.1 :=
      ⟨t0, hgt, Or.inl (List.mem_map.mpr ⟨fa, hfa, rfl⟩)⟩
    rcases hclosed k fa.1 hkmem hsucc with hin | hf
    · exact hin
    · cases hf

def mnm_dup : MacroNamespaceMap := [("f", ("other.html", tpl_other.macros))]

theorem C10_witness :
    Tera.get_template teraDup tpl_dup.name = some tpl_dup ∧
    add_macros_from_template teraDup 5 tpl_dup ⟨[]⟩ =
      some (Except.ok collDup) ∧
    lookupA collDup.macros "dup.html" = some mnm_dup ∧
    Tera.get_template teraDup "dup.html" = some tpl_dup ∧
    last_import tpl_dup.imported_macro_files "f" = some "other.html" ∧
    ((∀ a f, last_import tpl_dup.imported_macro_files a = some f →
      ∃ mt, Tera.get_template teraDup f = some mt ∧
        lookupA mnm_dup a = some (f, mt.macros)) ∧
    (∀ fa, fa ∈ tpl_dup.imported_macro_files →
      containsA collDup.macros fa.1 = true)) :=
  ⟨rfl, rfl, rfl, rfl, rfl,
   C10_duplicate_alias_last_wins teraDup tpl_dup 5 collDup "dup.html"
     mnm_dup tpl_dup rfl rfl rfl rfl⟩
